import Mathlib

/-!
Verification of `mypy_django_plugin/transformers/models.py`: the synthesis
pipeline that injects ORM-derived attributes into a model class declaration.

The source file is shallowly embedded below.  Class-based "initializers"
become functions from an `AnalyzerState` to a `StepResult`; the mypy symbol
table of the processed class becomes an association list from names to
symbol values; `IncompleteDefnException` propagation becomes the
`StepResult.incomplete` constructor carrying the partially mutated state.
External collaborators that are not part of the observed source
(`helpers`, `fullnames`, `transformers.fields`, the mypy method helper,
the Django introspection context) are modelled from the specification, as
tagged in each doc comment.
-/

set_option maxHeartbeats 1000000

namespace DjangoStubs

/-- A mypy type as used by the transformer: the fully dynamic type
(`AnyType`) or an instance of a named class with type arguments
(`Instance`); instances are identified by the fully qualified
name of the class, mirroring `Instance.type.fullname`. -/
inductive MypyType where
  | any : MypyType
  | inst : String → List MypyType → MypyType

mutual

def MypyType.decEq : (a b : MypyType) → Decidable (a = b)
  | .any, .any => isTrue rfl
  | .any, .inst _ _ => isFalse (fun h => MypyType.noConfusion h)
  | .inst _ _, .any => isFalse (fun h => MypyType.noConfusion h)
  | .inst f a, .inst g b =>
    match String.decEq f g, MypyType.decEqList a b with
    | isTrue hf, isTrue ha => isTrue (by rw [hf, ha])
    | isFalse hf, _ => isFalse (fun h => by cases h; exact hf rfl)
    | _, isFalse ha => isFalse (fun h => by cases h; exact ha rfl)

def MypyType.decEqList : (a b : List MypyType) → Decidable (a = b)
  | [], [] => isTrue rfl
  | [], _ :: _ => isFalse (fun h => List.noConfusion h)
  | _ :: _, [] => isFalse (fun h => List.noConfusion h)
  | x :: xs, y :: ys =>
    match MypyType.decEq x y, MypyType.decEqList xs ys with
    | isTrue h1, isTrue h2 => isTrue (by rw [h1, h2])
    | isFalse h1, _ => isFalse (fun h => by cases h; exact h1 rfl)
    | _, isFalse h2 => isFalse (fun h => by cases h; exact h2 rfl)

end

instance : DecidableEq MypyType := MypyType.decEq

/-- Argument kind of a synthesized method argument (`ARG_STAR2` is the
`**kwargs` kind used by `get_next_by_...`/`get_previous_by_...`). -/
inductive ArgKind where
  | posArg : ArgKind
  | star2 : ArgKind
deriving DecidableEq

/-- A formal argument of a synthesized method (mypy `Argument`). -/
structure FuncArg where
  name : String
  typ : MypyType
  kind : ArgKind
deriving DecidableEq

/-- A value stored in a symbol table: a variable (mypy `Var` with its
type), a function definition (mypy `FuncDef`, with an optional rebound
receiver type as set by `copy_method_to_another_class`), or a reference to
a nested or module-level class (`TypeInfo` node), identified by fullname. -/
inductive SymValue where
  | varSym : MypyType → SymValue
  | funcSym : Option MypyType → List FuncArg → MypyType → SymValue
  | typeRef : String → SymValue
deriving DecidableEq

/-- A symbol table: ordered association list from names to symbol values. -/
abbrev SymTable := List (String × SymValue)

/-- Lookup in a symbol table (mypy `info.names[name]` / `info.names.get`). -/
def lookupSym : SymTable → String → Option SymValue
  | [], _ => none
  | (n, v) :: rest, k => if n = k then some v else lookupSym rest k

/-- Insert-or-replace in a symbol table, preserving position of an existing
key (mypy `info.names[name] = sym`, a dict assignment). -/
def insertSym : SymTable → String → SymValue → SymTable
  | [], k, v => [(k, v)]
  | (n, w) :: rest, k, v =>
    if n = k then (n, v) :: rest else (n, w) :: insertSym rest k v

/-- The record the analyzer holds for a class: fully qualified name, owning module,
own symbol table, direct base types, plugin metadata
(the mapping stored under the metadata key from_queryset_managers, empty when absent), the
`fallback_to_any` flag, and the names of members readable only through the
MRO (so that `has_readable_member` can consult inherited members). -/
structure TypeInfo where
  fullname : String
  moduleName : String
  names : SymTable
  bases : List MypyType
  fromQuerysetManagers : List (String × String)
  fallbackToAny : Bool
  inheritedMembers : List String
deriving DecidableEq

/-- Lookup of a previously known type by fully qualified name
(`helpers.lookup_fully_qualified_typeinfo`; spec: Type Descriptor
Resolver).  Matches on the `fullname` field, so a successful lookup always
returns an info carrying the queried fullname. -/
def lookupTypeInfo : List TypeInfo → String → Option TypeInfo
  | [], _ => none
  | ti :: rest, f => if ti.fullname = f then some ti else lookupTypeInfo rest f

/-- Insert-or-replace a class record in the global table, preserving the
position of an existing record with the same fullname. -/
def insertTypeInfo : List TypeInfo → TypeInfo → List TypeInfo
  | [], ti => [ti]
  | hd :: rest, ti =>
    if hd.fullname = ti.fullname then ti :: rest else hd :: insertTypeInfo rest ti

/-- A diagnostic location: the class definition itself, or the node of a
named symbol of the class (`error_context` in `AddRelatedModelsId`). -/
inductive ErrCtx where
  | classCtx : String → ErrCtx
  | nodeCtx : String → ErrCtx
deriving DecidableEq

/-- The mutable analyzer state threaded through the pipeline: the
own record of the processed class (`self.model_classdef.info`, held directly by
the initializers), the global table of other class records, the emitted
diagnostics (`api.fail`), the deferral flag (`api.defer()`), and the
read-only final-pass flag (`api.final_iteration`). -/
structure AnalyzerState where
  modelInfo : TypeInfo
  typeInfos : List TypeInfo
  errors : List (String × ErrCtx)
  deferralRequested : Bool
  finalIteration : Bool
deriving DecidableEq

/-- Result of running one initializer or one item of its loop: normal
completion, or an escaped `IncompleteDefnException`; both carry the state
as mutated so far, because the Python objects are updated in place before
the exception is raised. -/
inductive StepResult where
  | completed : AnalyzerState → StepResult
  | incomplete : AnalyzerState → StepResult
deriving DecidableEq

/-- Embeds `ctx.api.defer()`: request that the host schedule another pass. -/
def requestAnotherPass (s : AnalyzerState) : AnalyzerState :=
  { s with deferralRequested := true }

/-- Modelled from the spec: `helpers.add_new_sym_for_info` (the Symbol
Table Mutator, spec section 4.2) — adds a named attribute with a given type
to the symbol table of the model class. -/
def addNewNodeToModelClass (s : AnalyzerState) (name : String) (typ : MypyType) :
    AnalyzerState :=
  { s with modelInfo :=
      { s.modelInfo with names := insertSym s.modelInfo.names name (.varSym typ) } }

/-- Embeds the external mypy `common.add_method`: registers a method
symbol with the given arguments and return type on the model class. -/
def addMethodToModelClass (s : AnalyzerState) (name : String) (args : List FuncArg)
    (ret : MypyType) : AnalyzerState :=
  { s with modelInfo :=
      { s.modelInfo with names := insertSym s.modelInfo.names name (.funcSym none args ret) } }

/-- Embeds `self.api.fail(msg, ctx)`: append one user-visible diagnostic. -/
def reportFail (s : AnalyzerState) (msg : String) (c : ErrCtx) : AnalyzerState :=
  { s with errors := s.errors ++ [(msg, c)] }

/-- Kind of a Django field as the transformer distinguishes them:
`isinstance(field, ForeignKey)`, `isinstance(field, (DateField,
DateTimeField))`, or anything else. -/
inductive DjFieldKind where
  | foreignKey : DjFieldKind
  | dateKind : DjFieldKind
  | dateTimeKind : DjFieldKind
  | otherKind : DjFieldKind
deriving DecidableEq

/-- Introspection result for the related model of a foreign key
(`django_context.get_field_related_model_cls(field)` together with the
reads performed on it: `_meta.abstract` and the class of
`get_primary_key_field`). -/
structure RelatedModelInfo where
  fullname : String
  isAbstract : Bool
  pkClassFullname : String
deriving DecidableEq

/-- Introspection result for one declared field (spec: Field Descriptor):
name, attribute name, kind, nullability, finite choice set, the fully
qualified name of the field class, and the textual form of
`field.related_model` used in the diagnostic message.  `related` is the
result of resolving the related model; `none` means the related model
cannot be found. -/
structure DjangoField where
  name : String
  attname : String
  kind : DjFieldKind
  null : Bool
  choices : List (String × String)
  classFullname : String
  relatedModelRepr : String
  related : Option RelatedModelInfo
deriving DecidableEq

/-- Introspection result for one manager bound to the model (spec: Manager
Descriptor): `__class__.__name__`, its fullname, the fullname of
`__class__.__bases__[0]`, and `manager.model.__name__`. -/
structure DjangoManager where
  className : String
  classFullname : String
  baseClassFullname : String
  modelName : String
deriving DecidableEq

/-- Kind of a reverse relation (`OneToOneRel`, `ManyToOneRel`,
`ManyToManyRel`, or any other reverse-related descriptor, for which the
loop body falls through without effect). -/
inductive DjRelKind where
  | oneToOne : DjRelKind
  | manyToOne : DjRelKind
  | manyToMany : DjRelKind
  | otherRel : DjRelKind
deriving DecidableEq

/-- Introspection result for one reverse relation (spec: Relation
Descriptor): kind, accessor name (`relation.get_accessor_name()`, absent
when there is no reverse accessor), and the fullname of the related model
(`none` when `get_field_related_model_cls` cannot resolve it). -/
structure DjangoRelation where
  kind : DjRelKind
  accessorName : Option String
  relatedModelFullname : Option String
deriving DecidableEq

/-- The runtime Django model backing a declaration, as read through
`model_cls._meta` and the Django context: the automatic primary key field
(`_meta.auto_field`), `_meta.get_fields()`, `_meta.managers_map`, the
class fullname of `_meta.default_manager`, the reverse relations
(`get_model_relations`), and the plain fields (`get_model_fields`). -/
structure DjangoModelCls where
  autoField : Option DjangoField
  metaFields : List DjangoField
  managersMap : List (String × DjangoManager)
  defaultManagerClassFullname : String
  relations : List DjangoRelation
  modelFields : List DjangoField
deriving DecidableEq

/-- Association lookup keyed by strings. -/
def assocFind {α : Type} : List (String × α) → String → Option α
  | [], _ => none
  | (k, v) :: rest, q => if k = q then some v else assocFind rest q

/-- The per-run context: the Django introspection side
(`django_context.get_model_class_by_fullname`, keyed by declaration
fullname) and the field-type oracle.  The oracle is modelled from the
spec: `transformers.fields.get_field_descriptor_types` (spec section 6,
Field-Type Oracle) maps a resolved field class and a nullability flag to
the (set type, get type) pair. -/
structure PluginCtx where
  djangoModels : List (String × DjangoModelCls)
  oracle : String → Bool → MypyType × MypyType

/-- `django_context.get_model_class_by_fullname`. -/
def getModelClsByFullname (pc : PluginCtx) (f : String) : Option DjangoModelCls :=
  assocFind pc.djangoModels f

/-- Modelled from the spec: `fullnames.MANAGER_CLASSES`, the known generic
manager family (spec section 4.3: "a known generic manager family
parametrized by a placeholder"). -/
def MANAGER_CLASSES : List String :=
  ["django.db.models.manager.Manager", "django.db.models.manager.BaseManager"]

/-- Modelled from the spec: `fullnames.RELATED_MANAGER_CLASS`, the generic
related-manager type used by the Related Managers step. -/
def RELATED_MANAGER_CLASS : String :=
  "django.db.models.fields.related_descriptors.RelatedManager"

/-- Modelled from the spec: `fullnames.OPTIONS_CLASS_FULLNAME`, the
options-handle type of the framework used by the Metadata Handle step. -/
def OPTIONS_CLASS_FULLNAME : String :=
  "django.db.models.options.Options"

/-- Embeds `ModelClassInitializer.run`: look up the backing runtime model; when
there is none the step is a no-op, otherwise run the step body
(`run_with_model_cls`). -/
def runWithModelCls (pc : PluginCtx)
    (body : DjangoModelCls → AnalyzerState → StepResult)
    (s : AnalyzerState) : StepResult :=
  match getModelClsByFullname pc s.modelInfo.fullname with
  | none => .completed s
  | some mc => body mc s

/-- Run the body of a per-item loop over a list of items, stopping at the
first escaped `IncompleteDefnException`, which propagates with the state
mutated so far. -/
def seqItems {α : Type} (f : α → AnalyzerState → StepResult) :
    List α → AnalyzerState → StepResult
  | [], s => .completed s
  | x :: xs, s =>
    match f x s with
    | .completed s2 => seqItems f xs s2
    | .incomplete s2 => .incomplete s2

/-- Modelled from the spec:
`helpers.get_nested_meta_node_for_current_class` — the nested options
sub-declaration, found as a class-valued symbol named `Meta` on the model
class. -/
def getNestedMetaNode (s : AnalyzerState) : Option String :=
  match lookupSym s.modelInfo.names ("Meta") with
  | some (.typeRef f) => some f
  | _ => none

/-- Embeds `InjectAnyAsBaseForNestedMeta.run`: note that this initializer
overrides `run` and performs no backing-model check; it sets
`meta_node.fallback_to_any = True` whenever a nested `Meta` exists. -/
def injectAnyAsBaseForNestedMetaRun (_pc : PluginCtx) (s : AnalyzerState) : StepResult :=
  match getNestedMetaNode s with
  | none => .completed s
  | some f =>
    match lookupTypeInfo s.typeInfos f with
    | none => .completed s
    | some mi =>
      .completed { s with typeInfos := insertTypeInfo s.typeInfos { mi with fallbackToAny := true } }

/-- Embeds `TypeInfo.has_readable_member`: readable through the own symbol table
or through a base class. -/
def hasReadableMember (s : AnalyzerState) (name : String) : Bool :=
  (lookupSym s.modelInfo.names name).isSome || s.modelInfo.inheritedMembers.contains name

/-- Embeds `AddDefaultPrimaryKey.run_with_model_cls`: when the model has an
automatic identity field with no readable member of that attribute name,
resolve the field class (raising on failure) and add the attribute typed
`Instance(field_class, [set_type, get_type])` with nullability `False`. -/
def addDefaultPrimaryKeyBody (pc : PluginCtx) (mc : DjangoModelCls)
    (s : AnalyzerState) : StepResult :=
  match mc.autoField with
  | none => .completed s
  | some af =>
    if hasReadableMember s af.attname then .completed s
    else
      match lookupTypeInfo s.typeInfos af.classFullname with
      | none => .incomplete s
      | some fi =>
        let p := pc.oracle fi.fullname false
        .completed (addNewNodeToModelClass s af.attname (.inst fi.fullname [p.1, p.2]))

/-- The diagnostic text of `AddRelatedModelsId` for an unresolvable
related model. -/
def fkFailMessage (f : DjangoField) : String :=
  "Cannot find model " ++ f.relatedModelRepr ++ " referenced in field " ++ f.name

/-- The diagnostic location of `AddRelatedModelsId`: the declaration node of the field when the class has a symbol of that field name, else the
class definition. -/
def fkErrorContext (s : AnalyzerState) (f : DjangoField) : ErrCtx :=
  match lookupSym s.modelInfo.names f.name with
  | some _ => .nodeCtx (s.modelInfo.fullname ++ "." ++ f.name)
  | none => .classCtx s.modelInfo.fullname

/-- One iteration of the `AddRelatedModelsId` loop: for a foreign key,
either report the missing related model (one diagnostic, shadow attribute
typed `Any`, no exception), skip an abstract related model, defer when the
class of the related primary key is not yet known (swallowed on the final
pass), or add the shadow `<attname>` attribute with the pair given by the oracle. -/
def processFkField (pc : PluginCtx) (f : DjangoField) (s : AnalyzerState) : StepResult :=
  if f.kind = .foreignKey then
    match f.related with
    | none =>
      let s1 := reportFail s (fkFailMessage f) (fkErrorContext s f)
      .completed (addNewNodeToModelClass s1 f.attname .any)
    | some r =>
      if r.isAbstract then .completed s
      else
        match lookupTypeInfo s.typeInfos r.pkClassFullname with
        | none => if s.finalIteration then .completed s else .incomplete s
        | some fi =>
          let p := pc.oracle fi.fullname f.null
          .completed (addNewNodeToModelClass s f.attname (.inst fi.fullname [p.1, p.2]))
  else .completed s

/-- Embeds `AddRelatedModelsId.run_with_model_cls`: the loop over
`model_cls._meta.get_fields()`. -/
def addRelatedModelsIdBody (pc : PluginCtx) (mc : DjangoModelCls)
    (s : AnalyzerState) : StepResult :=
  seqItems (processFkField pc) mc.metaFields s

/-- Embeds `AddManagers.is_any_parametrized_manager`: an instance of a known
generic manager class whose first type argument is `AnyType`. -/
def isAnyParametrizedManager : MypyType → Bool
  | .inst f (MypyType.any :: _) => MANAGER_CLASSES.contains f
  | _ => false

/-- Embeds `AddManagers.has_any_parametrized_manager_as_base` over the bases of
the manager type (spec section 4.4: "has, among its bases, a generic
manager instantiated with a placeholder type argument"). -/
def hasAnyParametrizedManagerAsBase (mi : TypeInfo) : Bool :=
  mi.bases.any isAnyParametrizedManager

/-- Embeds `AddManagers.get_generated_manager_mappings`: the remembered
generated-name to real-name mapping of a queryset-derived base manager,
empty when the base manager is unknown or carries no such metadata. -/
def getGeneratedManagerMappings (s : AnalyzerState) (baseFullname : String) :
    List (String × String) :=
  match lookupTypeInfo s.typeInfos baseFullname with
  | none => []
  | some bi => bi.fromQuerysetManagers

/-- Embeds `fullname.rsplit(sep, maxsplit=1)[1]` for dotted names: the last
dot-separated component. -/
def lastComponent (f : String) : String :=
  match (f.splitOn (".")).getLast? with
  | some c => c
  | none => f

/-- Compute the base list of a forged manager class: every base that is a
placeholder-parametrized generic manager is reparametrized with the
current model (`helpers.reparametrize_instance`); per the spec (section
4.3, Failure) the forge raises `UnresolvedDependency` when the underlying type of such a base is not resolvable. -/
def forgeBases (s : AnalyzerState) (modelFullname : String) :
    List MypyType → Option (List MypyType)
  | [] => some []
  | MypyType.inst f args :: rest =>
    if isAnyParametrizedManager (.inst f args) then
      match lookupTypeInfo s.typeInfos f with
      | none => none
      | some _ =>
        (forgeBases s modelFullname rest).map
          (fun bs => MypyType.inst f [.inst modelFullname []] :: bs)
    else (forgeBases s modelFullname rest).map (fun bs => MypyType.inst f args :: bs)
  | b :: rest => (forgeBases s modelFullname rest).map (fun bs => b :: bs)

/-- Member copy of the forge (`copy_method_to_another_class` for methods:
receiver rebound to the new type instantiated with the model; plain copy
otherwise). -/
def copySymForForge (customType : MypyType) : SymValue → SymValue
  | .funcSym _ args ret => .funcSym (some customType) args ret
  | v => v

/-- Embeds `AddManagers.create_new_model_parametrized_manager` (together with the
spec-modelled `helpers.add_new_class_for_module`): allocate a new class
under the module of the model with the computed bases, copy every member of the
template onto it, and return the new type instantiated with the current
model; `none` models the raised `IncompleteDefnException`. -/
def forgeManagerClass (s : AnalyzerState) (newName : String) (baseInfo : TypeInfo) :
    Option (MypyType × AnalyzerState) :=
  match forgeBases s s.modelInfo.fullname baseInfo.bases with
  | none => none
  | some bs =>
    let fullname := s.modelInfo.moduleName ++ "." ++ newName
    let customType : MypyType := .inst fullname [.inst s.modelInfo.fullname []]
    let ti : TypeInfo :=
      { fullname := fullname
        moduleName := s.modelInfo.moduleName
        names := baseInfo.names.map (fun p => (p.1, copySymForForge customType p.2))
        bases := bs
        fromQuerysetManagers := []
        fallbackToAny := false
        inheritedMembers := [] }
    some (customType, { s with typeInfos := insertTypeInfo s.typeInfos ti })

/-- The tail of one `AddManagers` loop iteration once a manager type
info is in hand: add the manager directly, parametrized with the current
model, when its name is not yet a symbol of the class; otherwise forge the
`<model.__name__>_<manager class name>` specialization when the manager
type has a placeholder-parametrized manager base (a forge failure is
swallowed and the manager skipped), and skip otherwise. -/
def addManagerWithInfo (m : DjangoManager) (managerName : String)
    (mi : TypeInfo) (managerClassName : String) (s : AnalyzerState) : StepResult :=
  if (lookupSym s.modelInfo.names managerName).isSome then
    if hasAnyParametrizedManagerAsBase mi then
      match forgeManagerClass s (m.modelName ++ "_" ++ managerClassName) mi with
      | none => .completed s
      | some (ct, s2) => .completed (addNewNodeToModelClass s2 managerName ct)
    else .completed s
  else
    .completed (addNewNodeToModelClass s managerName
      (.inst mi.fullname [.inst s.modelInfo.fullname []]))

/-- One iteration of the `AddManagers` loop: resolve the manager class;
on failure, raise on a non-final pass, and on the final pass attempt the
queryset-generated alternate lookup, skipping the manager silently when no
alternate resolves. -/
def processManagerItem (item : String × DjangoManager) (s : AnalyzerState) : StepResult :=
  let managerName := item.1
  let m := item.2
  match lookupTypeInfo s.typeInfos m.classFullname with
  | some mi => addManagerWithInfo m managerName mi m.className s
  | none =>
    if s.finalIteration then
      match assocFind (getGeneratedManagerMappings s m.baseClassFullname) m.classFullname with
      | none => .completed s
      | some realFn =>
        match lookupTypeInfo s.typeInfos realFn with
        | none => .completed s
        | some mi => addManagerWithInfo m managerName mi (lastComponent realFn) s
    else .incomplete s

/-- Embeds `AddManagers.run_with_model_cls`: the loop over
`model_cls._meta.managers_map`. -/
def addManagersBody (_pc : PluginCtx) (mc : DjangoModelCls) (s : AnalyzerState) : StepResult :=
  seqItems processManagerItem mc.managersMap s

/-- Embeds `AddDefaultManagerAttribute.run_with_model_cls`: add `_default_manager`
parametrized with the current model when absent, resolving the default
manager class (raising on failure). -/
def addDefaultManagerBody (_pc : PluginCtx) (mc : DjangoModelCls)
    (s : AnalyzerState) : StepResult :=
  if (lookupSym s.modelInfo.names ("_default_manager")).isSome then .completed s
  else
    match lookupTypeInfo s.typeInfos mc.defaultManagerClassFullname with
    | none => .incomplete s
    | some di =>
      .completed (addNewNodeToModelClass s ("_default_manager")
        (.inst di.fullname [.inst s.modelInfo.fullname []]))

/-- One iteration of the `AddRelatedManagers` loop: skip a relation with
no accessor name or an unresolvable related model; defer when the info of the related
model (or the related-manager class, for to-many relations) is not
yet known (swallowed on the final pass); otherwise add a plain attribute
of the type of the related model for one-to-one relations and a related-manager
instance parametrized with the related model for to-many relations. -/
def processRelationItem (rel : DjangoRelation) (s : AnalyzerState) : StepResult :=
  match rel.accessorName with
  | none => .completed s
  | some att =>
    match rel.relatedModelFullname with
    | none => .completed s
    | some rf =>
      match lookupTypeInfo s.typeInfos rf with
      | none => if s.finalIteration then .completed s else .incomplete s
      | some rmi =>
        match rel.kind with
        | .oneToOne => .completed (addNewNodeToModelClass s att (.inst rmi.fullname []))
        | .manyToOne =>
          match lookupTypeInfo s.typeInfos RELATED_MANAGER_CLASS with
          | none => if s.finalIteration then .completed s else .incomplete s
          | some mgi =>
            .completed (addNewNodeToModelClass s att
              (.inst mgi.fullname [.inst rmi.fullname []]))
        | .manyToMany =>
          match lookupTypeInfo s.typeInfos RELATED_MANAGER_CLASS with
          | none => if s.finalIteration then .completed s else .incomplete s
          | some mgi =>
            .completed (addNewNodeToModelClass s att
              (.inst mgi.fullname [.inst rmi.fullname []]))
        | .otherRel => .completed s

/-- Embeds `AddRelatedManagers.run_with_model_cls`: the loop over
`django_context.get_model_relations(model_cls)`. -/
def addRelatedManagersBody (_pc : PluginCtx) (mc : DjangoModelCls)
    (s : AnalyzerState) : StepResult :=
  seqItems processRelationItem mc.relations s

/-- The name of the choice accessor synthesized for a field. -/
def getDisplayMethodName (attname : String) : String :=
  "get_" ++ attname ++ "_display"

/-- One iteration of the choice loop of `AddExtraFieldMethods`: a field
with a non-empty choice set gets a zero-argument `get_<attname>_display`
method returning `builtins.str` (resolving `builtins.str` raises on
failure and escapes the step). -/
def processChoiceField (f : DjangoField) (s : AnalyzerState) : StepResult :=
  if f.choices.isEmpty then .completed s
  else
    match lookupTypeInfo s.typeInfos ("builtins.str") with
    | none => .incomplete s
    | some si =>
      .completed (addMethodToModelClass s (getDisplayMethodName f.attname) []
        (.inst si.fullname []))

/-- The `**kwargs: Any` argument of the date convenience methods. -/
def kwargsArg : FuncArg :=
  { name := "kwargs", typ := .any, kind := .star2 }

/-- Condition of the date loop of `AddExtraFieldMethods`:
`isinstance(field, (DateField, DateTimeField)) and not field.null`. -/
def isDateish (f : DjangoField) : Bool :=
  (f.kind = .dateKind || f.kind = .dateTimeKind) && !f.null

/-- One iteration of the date loop of `AddExtraFieldMethods`: a
non-nullable date or datetime field gets `get_next_by_<attname>` and
`get_previous_by_<attname>`, each taking `**kwargs` and returning the
own type of the model. -/
def processDateField (f : DjangoField) (s : AnalyzerState) : StepResult :=
  if isDateish f then
    let s2 := addMethodToModelClass s ("get_next_by_" ++ f.attname) [kwargsArg]
      (.inst s.modelInfo.fullname [])
    .completed (addMethodToModelClass s2 ("get_previous_by_" ++ f.attname) [kwargsArg]
      (.inst s2.modelInfo.fullname []))
  else .completed s

/-- Embeds `AddExtraFieldMethods.run_with_model_cls`: the choice loop followed by
the date loop, both over `django_context.get_model_fields(model_cls)`. -/
def addExtraFieldMethodsBody (_pc : PluginCtx) (mc : DjangoModelCls)
    (s : AnalyzerState) : StepResult :=
  match seqItems processChoiceField mc.modelFields s with
  | .incomplete s2 => .incomplete s2
  | .completed s2 => seqItems processDateField mc.modelFields s2

/-- Embeds `AddMetaOptionsAttribute.run_with_model_cls`: add `_meta` typed as the
options class parametrized with the current model when absent. -/
def addMetaOptionsBody (_pc : PluginCtx) (mc : DjangoModelCls)
    (s : AnalyzerState) : StepResult :=
  let _ := mc
  if (lookupSym s.modelInfo.names ("_meta")).isSome then .completed s
  else
    match lookupTypeInfo s.typeInfos OPTIONS_CLASS_FULLNAME with
    | none => .incomplete s
    | some oi =>
      .completed (addNewNodeToModelClass s ("_meta")
        (.inst oi.fullname [.inst s.modelInfo.fullname []]))

/-- The eight synthesis steps, in the fixed order of the `initializers`
list of `process_model_class`. -/
def pipelineStepRuns (pc : PluginCtx) : List (AnalyzerState → StepResult) :=
  [ injectAnyAsBaseForNestedMetaRun pc
  , runWithModelCls pc (addDefaultPrimaryKeyBody pc)
  , runWithModelCls pc (addRelatedModelsIdBody pc)
  , runWithModelCls pc (addManagersBody pc)
  , runWithModelCls pc (addDefaultManagerBody pc)
  , runWithModelCls pc (addRelatedManagersBody pc)
  , runWithModelCls pc (addExtraFieldMethodsBody pc)
  , runWithModelCls pc (addMetaOptionsBody pc) ]

/-- The `except IncompleteDefnException` handler of the pipeline loop: on
a non-final pass request another pass; on the final pass tolerate the
exception silently. -/
def catchIncomplete (r : StepResult) : AnalyzerState :=
  match r with
  | .completed s => s
  | .incomplete s => if s.finalIteration then s else requestAnotherPass s

/-- Run a list of steps in order, catching the escaped exception at each
step boundary. -/
def runSteps : List (AnalyzerState → StepResult) → AnalyzerState → AnalyzerState
  | [], s => s
  | st :: rest, s => runSteps rest (catchIncomplete (st s))

/-- Embeds `process_model_class`: the Pipeline Controller. -/
def processModelClass (pc : PluginCtx) (s : AnalyzerState) : AnalyzerState :=
  runSteps (pipelineStepRuns pc) s


/-! Basic algebra of the symbol-table and class-table operations. -/

theorem lookupSym_insertSym_self (t : SymTable) (k : String) (v : SymValue) :
    lookupSym (insertSym t k v) k = some v := by
  induction t with
  | nil => simp [insertSym, lookupSym]
  | cons hd rest ih =>
    obtain ⟨n, w⟩ := hd
    by_cases h : n = k
    · simp [insertSym, h, lookupSym]
    · simp [insertSym, h, lookupSym, ih]

theorem lookupSym_insertSym_ne (t : SymTable) (k q : String) (v : SymValue)
    (h : q ≠ k) : lookupSym (insertSym t k v) q = lookupSym t q := by
  induction t with
  | nil => simp [insertSym, lookupSym, Ne.symm h]
  | cons hd rest ih =>
    obtain ⟨n, w⟩ := hd
    by_cases hn : n = k
    · subst hn
      simp [insertSym, lookupSym, Ne.symm h]
    · by_cases hq : n = q
      · simp [insertSym, hn, lookupSym, hq, h]
      · simp [insertSym, hn, lookupSym, hq, ih]

theorem insertSym_self_of_lookup (t : SymTable) (k : String) (v : SymValue)
    (h : lookupSym t k = some v) : insertSym t k v = t := by
  induction t with
  | nil => simp [lookupSym] at h
  | cons hd rest ih =>
    obtain ⟨n, w⟩ := hd
    by_cases hn : n = k
    · subst hn
      simp [lookupSym] at h
      simp [insertSym, h]
    · simp [lookupSym, hn] at h
      simp [insertSym, hn, ih h]

theorem lookupSym_isSome_insertSym (t : SymTable) (k q : String) (v : SymValue)
    (h : (lookupSym t q).isSome = true) :
    (lookupSym (insertSym t k v) q).isSome = true := by
  by_cases hq : q = k
  · subst hq
    simp [lookupSym_insertSym_self]
  · rw [lookupSym_insertSym_ne t k q v hq]
    exact h

theorem lookupTypeInfo_insertTypeInfo_self (e : List TypeInfo) (ti : TypeInfo) :
    lookupTypeInfo (insertTypeInfo e ti) ti.fullname = some ti := by
  induction e with
  | nil => simp [insertTypeInfo, lookupTypeInfo]
  | cons hd rest ih =>
    by_cases h : hd.fullname = ti.fullname
    · simp [insertTypeInfo, h, lookupTypeInfo]
    · simp [insertTypeInfo, h, lookupTypeInfo, ih]

theorem lookupTypeInfo_insertTypeInfo_ne (e : List TypeInfo) (ti : TypeInfo)
    (q : String) (h : q ≠ ti.fullname) :
    lookupTypeInfo (insertTypeInfo e ti) q = lookupTypeInfo e q := by
  induction e with
  | nil => simp [insertTypeInfo, lookupTypeInfo, Ne.symm h]
  | cons hd rest ih =>
    by_cases hn : hd.fullname = ti.fullname
    · simp [insertTypeInfo, hn, lookupTypeInfo, Ne.symm h]
    · by_cases hq : hd.fullname = q
      · simp [insertTypeInfo, hn, lookupTypeInfo, hq, h]
      · simp [insertTypeInfo, hn, lookupTypeInfo, hq, ih]

theorem insertTypeInfo_self_of_lookup (e : List TypeInfo) (ti : TypeInfo)
    (h : lookupTypeInfo e ti.fullname = some ti) : insertTypeInfo e ti = e := by
  induction e with
  | nil => simp [lookupTypeInfo] at h
  | cons hd rest ih =>
    by_cases hn : hd.fullname = ti.fullname
    · simp [lookupTypeInfo, hn] at h
      simp [insertTypeInfo, hn, h]
    · simp [lookupTypeInfo, hn] at h
      simp [insertTypeInfo, hn, ih h]

/-! Claim C1: the deferral protocol of the pipeline loop. -/

/-- C1 (amended): when a synthesis step raises the unresolved-dependency
exception, the controller continues with the next step in both cases; on a
non-final pass it requests another pass from the host first, and on the
final pass it swallows the exception, adding no diagnostic.  The
amendment: the effects the failing step made before the exception persist
for the pass (they are not rolled back), so the failing step need not
"add nothing"; only its remaining effects are absent. -/
theorem c1_controller_deferral (stepF : AnalyzerState → StepResult)
    (rest : List (AnalyzerState → StepResult)) (s s2 : AnalyzerState)
    (h : stepF s = .incomplete s2) :
    (s2.finalIteration = false →
       runSteps (stepF :: rest) s = runSteps rest (requestAnotherPass s2)
       ∧ (requestAnotherPass s2).deferralRequested = true
       ∧ (requestAnotherPass s2).errors = s2.errors)
    ∧ (s2.finalIteration = true → runSteps (stepF :: rest) s = runSteps rest s2) := by
  constructor
  · intro hf
    refine ⟨?_, rfl, rfl⟩
    simp [runSteps, catchIncomplete, h, hf]
  · intro hf
    simp [runSteps, catchIncomplete, h, hf]

/-- Concrete data for the C1 counterexample and witness: a model whose
automatic primary key field has an unresolvable class. -/
def c1Mc : DjangoModelCls :=
  { autoField := some
      { name := "id", attname := "id", kind := .otherKind, null := false,
        choices := [], classFullname := "m.AutoField", relatedModelRepr := "",
        related := none }
    metaFields := []
    managersMap := []
    defaultManagerClassFullname := "m.Manager"
    relations := []
    modelFields := [] }

def c1Pc : PluginCtx :=
  { djangoModels := [("m.M", c1Mc)], oracle := fun _ _ => (.any, .any) }

def c1S : AnalyzerState :=
  { modelInfo :=
      { fullname := "m.M", moduleName := "m", names := [], bases := [],
        fromQuerysetManagers := [], fallbackToAny := false, inheritedMembers := [] }
    typeInfos := []
    errors := []
    deferralRequested := false
    finalIteration := false }

theorem c1_controller_deferral_witness :
    runWithModelCls c1Pc (addDefaultPrimaryKeyBody c1Pc) c1S = .incomplete c1S
    ∧ c1S.finalIteration = false
    ∧ runSteps [runWithModelCls c1Pc (addDefaultPrimaryKeyBody c1Pc)] c1S
        = runSteps [] (requestAnotherPass c1S)
    ∧ (requestAnotherPass c1S).deferralRequested = true :=
  ⟨by decide, by decide,
   ((c1_controller_deferral (runWithModelCls c1Pc (addDefaultPrimaryKeyBody c1Pc))
      [] c1S c1S (by decide)).1 (by decide)).1,
   ((c1_controller_deferral (runWithModelCls c1Pc (addDefaultPrimaryKeyBody c1Pc))
      [] c1S c1S (by decide)).1 (by decide)).2.1⟩

/-- Concrete data for the C1 counterexample: two foreign keys, the first
resolvable, the second with an unresolvable related primary key class. -/
def c1xMc : DjangoModelCls :=
  { autoField := none
    metaFields :=
      [ { name := "a", attname := "a_id", kind := .foreignKey, null := false,
          choices := [], classFullname := "m.FK", relatedModelRepr := "B",
          related := some { fullname := "m.B", isAbstract := false,
                            pkClassFullname := "m.IntField" } }
      , { name := "c", attname := "c_id", kind := .foreignKey, null := false,
          choices := [], classFullname := "m.FK", relatedModelRepr := "C",
          related := some { fullname := "m.C", isAbstract := false,
                            pkClassFullname := "m.Missing" } } ]
    managersMap := []
    defaultManagerClassFullname := "m.Manager"
    relations := []
    modelFields := [] }

def c1xPc : PluginCtx :=
  { djangoModels := [("m.M", c1xMc)], oracle := fun _ _ => (.any, .any) }

def c1xS : AnalyzerState :=
  { modelInfo :=
      { fullname := "m.M", moduleName := "m", names := [], bases := [],
        fromQuerysetManagers := [], fallbackToAny := false, inheritedMembers := [] }
    typeInfos :=
      [ { fullname := "m.IntField", moduleName := "m", names := [], bases := [],
          fromQuerysetManagers := [], fallbackToAny := false, inheritedMembers := [] } ]
    errors := []
    deferralRequested := false
    finalIteration := false }

def c1xAfter : AnalyzerState :=
  addNewNodeToModelClass c1xS ("a_id") (.inst ("m.IntField") [.any, .any])

/-- C1, counterexample to the parenthetical "the failing step adds nothing
this pass": on a non-final pass the relation-shadow-id step raises on its
second foreign key after having already added the shadow attribute of the
first, so the failing step leaves a nonempty symbol-table delta. -/
theorem c1_counterexample :
    runWithModelCls c1xPc (addRelatedModelsIdBody c1xPc) c1xS = .incomplete c1xAfter
    ∧ c1xS.finalIteration = false
    ∧ c1xAfter.modelInfo.names ≠ c1xS.modelInfo.names := by
  refine ⟨by decide, by decide, by decide⟩

/-! Claim C2: graceful failure for an unresolvable foreign-key target. -/

/-- C2: a foreign-key field whose related model cannot be found at all
produces exactly one diagnostic, located at the declaration node of the
field, still gets its shadow identifier attribute (the attname) typed
fully dynamic, and raises no exception for that field. -/
theorem c2_graceful_relation_failure (pc : PluginCtx) (f : DjangoField)
    (s : AnalyzerState) (hk : f.kind = .foreignKey) (hr : f.related = none)
    (hs : (lookupSym s.modelInfo.names f.name).isSome = true) :
    processFkField pc f s =
      .completed (addNewNodeToModelClass
        (reportFail s (fkFailMessage f) (.nodeCtx (s.modelInfo.fullname ++ "." ++ f.name)))
        f.attname .any)
    ∧ ∃ s2, processFkField pc f s = .completed s2
        ∧ s2.errors = s.errors ++
            [(fkFailMessage f, .nodeCtx (s.modelInfo.fullname ++ "." ++ f.name))]
        ∧ lookupSym s2.modelInfo.names f.attname = some (.varSym .any)
        ∧ (∀ k, k ≠ f.attname →
            lookupSym s2.modelInfo.names k = lookupSym s.modelInfo.names k)
        ∧ s2.deferralRequested = s.deferralRequested := by
  obtain ⟨v, hv⟩ := Option.isSome_iff_exists.mp hs
  have hctx : fkErrorContext s f = .nodeCtx (s.modelInfo.fullname ++ "." ++ f.name) := by
    simp [fkErrorContext, hv]
  have hrun : processFkField pc f s =
      .completed (addNewNodeToModelClass
        (reportFail s (fkFailMessage f) (.nodeCtx (s.modelInfo.fullname ++ "." ++ f.name)))
        f.attname .any) := by
    simp [processFkField, hk, hr, hctx]
  refine ⟨hrun, _, hrun, ?_, ?_, ?_, ?_⟩
  · simp [addNewNodeToModelClass, reportFail]
  · simp [addNewNodeToModelClass, reportFail, lookupSym_insertSym_self]
  · intro k hkne
    simp [addNewNodeToModelClass, reportFail, lookupSym_insertSym_ne _ _ _ _ hkne]
  · simp [addNewNodeToModelClass, reportFail]

/-- Concrete data for the C2 witness: a foreign key with no findable
related model, declared as a symbol of the class. -/
def c2F : DjangoField :=
  { name := "b", attname := "b_id", kind := .foreignKey, null := false,
    choices := [], classFullname := "m.FK", relatedModelRepr := "Broken",
    related := none }

def c2Pc : PluginCtx :=
  { djangoModels := [], oracle := fun _ _ => (.any, .any) }

def c2S : AnalyzerState :=
  { modelInfo :=
      { fullname := "m.M", moduleName := "m",
        names := [("b", SymValue.varSym .any)], bases := [],
        fromQuerysetManagers := [], fallbackToAny := false, inheritedMembers := [] }
    typeInfos := []
    errors := []
    deferralRequested := false
    finalIteration := false }

theorem c2_graceful_relation_failure_witness :
    c2F.kind = .foreignKey ∧
    processFkField c2Pc c2F c2S =
      .completed (addNewNodeToModelClass
        (reportFail c2S (fkFailMessage c2F)
          (.nodeCtx (c2S.modelInfo.fullname ++ "." ++ c2F.name)))
        c2F.attname .any) :=
  ⟨by decide,
   (c2_graceful_relation_failure c2Pc c2F c2S (by decide) (by decide) (by decide)).1⟩

/-! Claim C9: the queryset-generated alternate lookup for managers. -/

/-- C9 (amended): the alternate lookup through the remembered
generated-name to real-name mapping happens only on the final pass; there,
a manager whose class does not resolve and whose alternate does not
resolve either (or which has no alternate) is skipped with no diagnostic,
while on a non-final pass the failure raises the unresolved-dependency
exception without attempting the alternate lookup. -/
theorem c9_generated_manager_fallback (n : String) (m : DjangoManager)
    (s : AnalyzerState) (hl : lookupTypeInfo s.typeInfos m.classFullname = none) :
    (s.finalIteration = false → processManagerItem (n, m) s = .incomplete s)
    ∧ (s.finalIteration = true →
        assocFind (getGeneratedManagerMappings s m.baseClassFullname) m.classFullname = none →
        processManagerItem (n, m) s = .completed s)
    ∧ (∀ rf, s.finalIteration = true →
        assocFind (getGeneratedManagerMappings s m.baseClassFullname) m.classFullname = some rf →
        lookupTypeInfo s.typeInfos rf = none →
        processManagerItem (n, m) s = .completed s) := by
  refine ⟨?_, ?_, ?_⟩
  · intro hf
    simp [processManagerItem, hl, hf]
  · intro hf hm
    simp [processManagerItem, hl, hf, hm]
  · intro rf hf hm hrf
    simp [processManagerItem, hl, hf, hm, hrf]

/-- Concrete data for C9: a generated manager class, unresolvable, whose
base manager remembers a mapping to a real manager name that is also
unresolvable. -/
def c9M : DjangoManager :=
  { className := "GenM", classFullname := "m.GenM",
    baseClassFullname := "django.db.models.manager.Manager", modelName := "A" }

def c9S : AnalyzerState :=
  { modelInfo :=
      { fullname := "m.M", moduleName := "m", names := [], bases := [],
        fromQuerysetManagers := [], fallbackToAny := false, inheritedMembers := [] }
    typeInfos :=
      [ { fullname := "django.db.models.manager.Manager",
          moduleName := "django.db.models.manager", names := [], bases := [],
          fromQuerysetManagers := [("m.GenM", "m.RealM")], fallbackToAny := false,
          inheritedMembers := [] } ]
    errors := []
    deferralRequested := false
    finalIteration := true }

theorem c9_generated_manager_fallback_witness :
    c9S.finalIteration = true ∧
    processManagerItem ("objects", c9M) c9S = .completed c9S :=
  ⟨by decide,
   (c9_generated_manager_fallback ("objects") c9M c9S (by decide)).2.2
     ("m.RealM") (by decide) (by decide) (by decide)⟩

def c9xS : AnalyzerState :=
  { c9S with finalIteration := false }

/-- C9, counterexample to the unconditional reading: on a non-final pass
the same unresolvable generated manager is not skipped; the exception
escapes the loop instead, so the manager item does not complete. -/
theorem c9_counterexample :
    processManagerItem ("objects", c9M) c9xS = .incomplete c9xS
    ∧ ¬ processManagerItem ("objects", c9M) c9xS = .completed c9xS :=
  ⟨by decide, by decide⟩

/-! Claim C10: an unresolved dependency inside a per-item loop aborts the
whole remainder of the step for this pass. -/

theorem seqItems_append {α : Type} (f : α → AnalyzerState → StepResult)
    (l1 l2 : List α) (s : AnalyzerState) :
    seqItems f (l1 ++ l2) s =
      match seqItems f l1 s with
      | .completed t => seqItems f l2 t
      | .incomplete t => .incomplete t := by
  induction l1 generalizing s with
  | nil => simp [seqItems]
  | cons x xs ih =>
    simp only [List.cons_append, seqItems]
    cases f x s with
    | completed t => simp [ih]
    | incomplete t => simp

/-- C10: when one foreign-key item of the relation-shadow-id step raises
the unresolved-dependency exception, the remaining fields of that step are
not processed in this pass — the result is the same whatever follows the
failing field — and the exception is caught only at the step boundary of
the pipeline loop, where the controller defers and moves on. -/
theorem c10_item_failure_defers_step (pc : PluginCtx) (mc : DjangoModelCls)
    (fs1 : List DjangoField) (bad : DjangoField) (fs2 : List DjangoField)
    (s s1 s2 : AnalyzerState)
    (hmc : mc.metaFields = fs1 ++ bad :: fs2)
    (h1 : seqItems (processFkField pc) fs1 s = .completed s1)
    (hbad : processFkField pc bad s1 = .incomplete s2)
    (hb : getModelClsByFullname pc s.modelInfo.fullname = some mc) :
    addRelatedModelsIdBody pc mc s = .incomplete s2
    ∧ addRelatedModelsIdBody pc { mc with metaFields := fs1 ++ [bad] } s = .incomplete s2
    ∧ runWithModelCls pc (addRelatedModelsIdBody pc) s = .incomplete s2
    ∧ (s2.finalIteration = false →
        ∀ rest, runSteps (runWithModelCls pc (addRelatedModelsIdBody pc) :: rest) s
          = runSteps rest (requestAnotherPass s2)) := by
  have key : addRelatedModelsIdBody pc mc s = .incomplete s2 := by
    rw [addRelatedModelsIdBody, hmc, seqItems_append, h1]
    simp [seqItems, hbad]
  have key2 : addRelatedModelsIdBody pc { mc with metaFields := fs1 ++ [bad] } s
      = .incomplete s2 := by
    rw [addRelatedModelsIdBody]
    simp only
    rw [seqItems_append, h1]
    simp [seqItems, hbad]
  have key3 : runWithModelCls pc (addRelatedModelsIdBody pc) s = .incomplete s2 := by
    rw [runWithModelCls, hb]
    exact key
  refine ⟨key, key2, key3, ?_⟩
  intro hf rest
  simp [runSteps, catchIncomplete, key3, hf]

/-- Concrete data for the C10 witness: three foreign keys; the second one
fails to resolve, the third is perfectly resolvable yet is not processed. -/
def c10F1 : DjangoField :=
  { name := "a", attname := "a_id", kind := .foreignKey, null := false,
    choices := [], classFullname := "m.FK", relatedModelRepr := "B",
    related := some { fullname := "m.B", isAbstract := false,
                      pkClassFullname := "m.IntField" } }

def c10F2 : DjangoField :=
  { name := "c", attname := "c_id", kind := .foreignKey, null := false,
    choices := [], classFullname := "m.FK", relatedModelRepr := "C",
    related := some { fullname := "m.C", isAbstract := false,
                      pkClassFullname := "m.Missing" } }

def c10F3 : DjangoField :=
  { name := "d", attname := "d_id", kind := .foreignKey, null := false,
    choices := [], classFullname := "m.FK", relatedModelRepr := "D",
    related := some { fullname := "m.D", isAbstract := false,
                      pkClassFullname := "m.IntField" } }

def c10Mc : DjangoModelCls :=
  { autoField := none
    metaFields := [c10F1, c10F2, c10F3]
    managersMap := []
    defaultManagerClassFullname := "m.Manager"
    relations := []
    modelFields := [] }

def c10Pc : PluginCtx :=
  { djangoModels := [("m.M", c10Mc)], oracle := fun _ _ => (.any, .any) }

def c10S : AnalyzerState :=
  { modelInfo :=
      { fullname := "m.M", moduleName := "m", names := [], bases := [],
        fromQuerysetManagers := [], fallbackToAny := false, inheritedMembers := [] }
    typeInfos :=
      [ { fullname := "m.IntField", moduleName := "m", names := [], bases := [],
          fromQuerysetManagers := [], fallbackToAny := false, inheritedMembers := [] } ]
    errors := []
    deferralRequested := false
    finalIteration := false }

def c10After : AnalyzerState :=
  addNewNodeToModelClass c10S ("a_id") (.inst ("m.IntField") [.any, .any])

theorem c10_item_failure_defers_step_witness :
    runWithModelCls c10Pc (addRelatedModelsIdBody c10Pc) c10S = .incomplete c10After
    ∧ lookupSym c10After.modelInfo.names ("d_id") = none :=
  ⟨(c10_item_failure_defers_step c10Pc c10Mc [c10F1] c10F2 [c10F3] c10S c10After c10After
      (by decide) (by decide) (by decide) (by decide)).2.2.1,
   by decide⟩

/-! Claim C5: behavior of the steps on a declaration with no backing
runtime model. -/

/-- C5 (amended): each step routed through the generic run wrapper is a
strict no-op when the declaration is not backed by a loaded runtime model;
the Permissive Nested Options step, which overrides the wrapper and does
no backing check, still never touches the symbol table of the declaration,
the diagnostics or the deferral flag, but it may mark the nested options
sub-declaration permissive even for an unbacked declaration. -/
theorem c5_unbacked_steps_noop (pc : PluginCtx) (s : AnalyzerState)
    (h : getModelClsByFullname pc s.modelInfo.fullname = none) :
    runWithModelCls pc (addDefaultPrimaryKeyBody pc) s = .completed s
    ∧ runWithModelCls pc (addRelatedModelsIdBody pc) s = .completed s
    ∧ runWithModelCls pc (addManagersBody pc) s = .completed s
    ∧ runWithModelCls pc (addDefaultManagerBody pc) s = .completed s
    ∧ runWithModelCls pc (addRelatedManagersBody pc) s = .completed s
    ∧ runWithModelCls pc (addExtraFieldMethodsBody pc) s = .completed s
    ∧ runWithModelCls pc (addMetaOptionsBody pc) s = .completed s
    ∧ ∃ s2, injectAnyAsBaseForNestedMetaRun pc s = .completed s2
        ∧ s2.modelInfo = s.modelInfo
        ∧ s2.errors = s.errors
        ∧ s2.deferralRequested = s.deferralRequested := by
  have hw : ∀ body, runWithModelCls pc body s = .completed s := by
    intro body
    simp [runWithModelCls, h]
  refine ⟨hw _, hw _, hw _, hw _, hw _, hw _, hw _, ?_⟩
  cases hm : getNestedMetaNode s with
  | none =>
    refine ⟨s, ?_, rfl, rfl, rfl⟩
    simp [injectAnyAsBaseForNestedMetaRun, hm]
  | some f =>
    cases hl : lookupTypeInfo s.typeInfos f with
    | none =>
      refine ⟨s, ?_, rfl, rfl, rfl⟩
      simp [injectAnyAsBaseForNestedMetaRun, hm, hl]
    | some mi =>
      refine ⟨{ s with typeInfos := insertTypeInfo s.typeInfos { mi with fallbackToAny := true } },
        ?_, rfl, rfl, rfl⟩
      simp [injectAnyAsBaseForNestedMetaRun, hm, hl]

/-- Concrete data for C5: an unbacked declaration carrying a nested
options class whose permissive flag is still unset. -/
def c5MetaTI : TypeInfo :=
  { fullname := "m.M.Meta", moduleName := "m", names := [], bases := [],
    fromQuerysetManagers := [], fallbackToAny := false, inheritedMembers := [] }

def c5Pc : PluginCtx :=
  { djangoModels := [], oracle := fun _ _ => (.any, .any) }

def c5S : AnalyzerState :=
  { modelInfo :=
      { fullname := "m.M", moduleName := "m",
        names := [("Meta", SymValue.typeRef ("m.M.Meta"))], bases := [],
        fromQuerysetManagers := [], fallbackToAny := false, inheritedMembers := [] }
    typeInfos := [c5MetaTI]
    errors := []
    deferralRequested := false
    finalIteration := false }

def c5S2 : AnalyzerState :=
  { c5S with typeInfos := [{ c5MetaTI with fallbackToAny := true }] }

/-- C5, counterexample to the claim as stated: on the unbacked declaration
`c5S` the Permissive Nested Options step is not a no-op — it flips the
permissive flag of the nested options sub-declaration. -/
theorem c5_counterexample :
    getModelClsByFullname c5Pc c5S.modelInfo.fullname = none
    ∧ injectAnyAsBaseForNestedMetaRun c5Pc c5S = .completed c5S2
    ∧ c5S2.typeInfos ≠ c5S.typeInfos
    ∧ ¬ injectAnyAsBaseForNestedMetaRun c5Pc c5S = .completed c5S :=
  ⟨by decide, by decide, by decide, by decide⟩

theorem c5_unbacked_steps_noop_witness :
    getModelClsByFullname c5Pc c5S.modelInfo.fullname = none
    ∧ runWithModelCls c5Pc (addDefaultPrimaryKeyBody c5Pc) c5S = .completed c5S
    ∧ runWithModelCls c5Pc (addManagersBody c5Pc) c5S = .completed c5S :=
  ⟨by decide,
   (c5_unbacked_steps_noop c5Pc c5S (by decide)).1,
   (c5_unbacked_steps_noop c5Pc c5S (by decide)).2.2.1⟩

/-! Claim C6: default primary key synthesis. -/

/-- C6: for a backed model with an automatic identity field whose
attribute name has no readable member, the step adds exactly one attribute
of that name, typed as the resolved identity-field class instantiated with
the oracle pair taken at nullability false, leaving every other name
untouched; when the model has no automatic identity field, or the member
is already readable, the step adds nothing. -/
theorem c6_default_primary_key (pc : PluginCtx) (mc : DjangoModelCls)
    (s : AnalyzerState) (hb : getModelClsByFullname pc s.modelInfo.fullname = some mc) :
    (mc.autoField = none →
      runWithModelCls pc (addDefaultPrimaryKeyBody pc) s = .completed s)
    ∧ (∀ af, mc.autoField = some af → hasReadableMember s af.attname = true →
        runWithModelCls pc (addDefaultPrimaryKeyBody pc) s = .completed s)
    ∧ (∀ af fi, mc.autoField = some af → hasReadableMember s af.attname = false →
        lookupTypeInfo s.typeInfos af.classFullname = some fi →
        runWithModelCls pc (addDefaultPrimaryKeyBody pc) s =
          .completed (addNewNodeToModelClass s af.attname
            (.inst fi.fullname
              [(pc.oracle fi.fullname false).1, (pc.oracle fi.fullname false).2]))
        ∧ lookupSym (addNewNodeToModelClass s af.attname
            (.inst fi.fullname
              [(pc.oracle fi.fullname false).1,
               (pc.oracle fi.fullname false).2])).modelInfo.names af.attname
          = some (.varSym (.inst fi.fullname
              [(pc.oracle fi.fullname false).1, (pc.oracle fi.fullname false).2]))
        ∧ (∀ k, k ≠ af.attname →
            lookupSym (addNewNodeToModelClass s af.attname
              (.inst fi.fullname
                [(pc.oracle fi.fullname false).1,
                 (pc.oracle fi.fullname false).2])).modelInfo.names k
            = lookupSym s.modelInfo.names k)) := by
  refine ⟨?_, ?_, ?_⟩
  · intro haf
    simp [runWithModelCls, hb, addDefaultPrimaryKeyBody, haf]
  · intro af haf hr
    simp [runWithModelCls, hb, addDefaultPrimaryKeyBody, haf, hr]
  · intro af fi haf hr hl
    refine ⟨?_, ?_, ?_⟩
    · simp [runWithModelCls, hb, addDefaultPrimaryKeyBody, haf, hr, hl]
    · simp [addNewNodeToModelClass, lookupSym_insertSym_self]
    · intro k hk
      simp [addNewNodeToModelClass, lookupSym_insertSym_ne _ _ _ _ hk]

/-- Concrete data for C6: an automatic identity field of a resolvable
class, with a nontrivial oracle. -/
def c6Mc : DjangoModelCls :=
  { autoField := some
      { name := "id", attname := "id", kind := .otherKind, null := false,
        choices := [], classFullname := "m.AutoField", relatedModelRepr := "",
        related := none }
    metaFields := []
    managersMap := []
    defaultManagerClassFullname := "m.Manager"
    relations := []
    modelFields := [] }

def c6Pc : PluginCtx :=
  { djangoModels := [("m.M", c6Mc)]
    oracle := fun f b => (.inst (f ++ ".set") [], .inst (f ++ ".get") [.any, if b then .any else .inst ("x") []]) }

def c6S : AnalyzerState :=
  { modelInfo :=
      { fullname := "m.M", moduleName := "m", names := [], bases := [],
        fromQuerysetManagers := [], fallbackToAny := false, inheritedMembers := [] }
    typeInfos :=
      [ { fullname := "m.AutoField", moduleName := "m", names := [], bases := [],
          fromQuerysetManagers := [], fallbackToAny := false, inheritedMembers := [] } ]
    errors := []
    deferralRequested := false
    finalIteration := false }

def c6Af : DjangoField :=
  { name := "id", attname := "id", kind := .otherKind, null := false,
    choices := [], classFullname := "m.AutoField", relatedModelRepr := "",
    related := none }

def c6Fi : TypeInfo :=
  { fullname := "m.AutoField", moduleName := "m", names := [], bases := [],
    fromQuerysetManagers := [], fallbackToAny := false, inheritedMembers := [] }

theorem c6_default_primary_key_witness :
    hasReadableMember c6S ("id") = false
    ∧ runWithModelCls c6Pc (addDefaultPrimaryKeyBody c6Pc) c6S =
        .completed (addNewNodeToModelClass c6S c6Af.attname
          (.inst c6Fi.fullname
            [(c6Pc.oracle c6Fi.fullname false).1, (c6Pc.oracle c6Fi.fullname false).2])) :=
  ⟨by decide,
   ((c6_default_primary_key c6Pc c6Mc c6S (by decide)).2.2 c6Af c6Fi
      (by decide) (by decide) (by decide)).1⟩

/-! Claim C7: dispatch on the kind of a reverse relation. -/

/-- C7: a reverse relation with an accessor name and a resolvable related
model yields a plain attribute of the type of the related model when it is
one-to-one, and an attribute typed as the generic related-manager class
instantiated with the type of the related model when it is many-to-one or
many-to-many; a relation with no accessor name yields nothing. -/
theorem c7_related_manager_dispatch (rel : DjangoRelation) (s : AnalyzerState) :
    (rel.accessorName = none → processRelationItem rel s = .completed s)
    ∧ (∀ att rf rmi, rel.accessorName = some att →
        rel.relatedModelFullname = some rf →
        lookupTypeInfo s.typeInfos rf = some rmi →
        (rel.kind = .oneToOne →
          processRelationItem rel s =
            .completed (addNewNodeToModelClass s att (.inst rmi.fullname []))
          ∧ lookupSym (addNewNodeToModelClass s att
              (.inst rmi.fullname [])).modelInfo.names att
            = some (.varSym (.inst rmi.fullname [])))
        ∧ (∀ mgi, (rel.kind = .manyToOne ∨ rel.kind = .manyToMany) →
            lookupTypeInfo s.typeInfos RELATED_MANAGER_CLASS = some mgi →
            processRelationItem rel s =
              .completed (addNewNodeToModelClass s att
                (.inst mgi.fullname [.inst rmi.fullname []]))
            ∧ lookupSym (addNewNodeToModelClass s att
                (.inst mgi.fullname [.inst rmi.fullname []])).modelInfo.names att
              = some (.varSym (.inst mgi.fullname [.inst rmi.fullname []])))) := by
  refine ⟨?_, ?_⟩
  · intro ha
    simp [processRelationItem, ha]
  · intro att rf rmi ha hrf hl
    refine ⟨?_, ?_⟩
    · intro hk
      refine ⟨?_, ?_⟩
      · simp [processRelationItem, ha, hrf, hl, hk]
      · simp [addNewNodeToModelClass, lookupSym_insertSym_self]
    · intro mgi hk hmg
      refine ⟨?_, ?_⟩
      · cases hk with
        | inl hk => simp [processRelationItem, ha, hrf, hl, hk, hmg]
        | inr hk => simp [processRelationItem, ha, hrf, hl, hk, hmg]
      · simp [addNewNodeToModelClass, lookupSym_insertSym_self]

/-- Concrete data for C7: a one-to-one and a many-to-many reverse relation
against a resolvable related model and related-manager class. -/
def c7RelOne : DjangoRelation :=
  { kind := .oneToOne, accessorName := some ("profile"),
    relatedModelFullname := some ("m.P") }

def c7RelMany : DjangoRelation :=
  { kind := .manyToMany, accessorName := some ("tag_set"),
    relatedModelFullname := some ("m.P") }

def c7Rmi : TypeInfo :=
  { fullname := "m.P", moduleName := "m", names := [], bases := [],
    fromQuerysetManagers := [], fallbackToAny := false, inheritedMembers := [] }

def c7Mgi : TypeInfo :=
  { fullname := "django.db.models.fields.related_descriptors.RelatedManager",
    moduleName := "django.db.models.fields.related_descriptors", names := [],
    bases := [], fromQuerysetManagers := [], fallbackToAny := false,
    inheritedMembers := [] }

def c7S : AnalyzerState :=
  { modelInfo :=
      { fullname := "m.M", moduleName := "m", names := [], bases := [],
        fromQuerysetManagers := [], fallbackToAny := false, inheritedMembers := [] }
    typeInfos := [c7Rmi, c7Mgi]
    errors := []
    deferralRequested := false
    finalIteration := false }

theorem c7_related_manager_dispatch_witness :
    processRelationItem c7RelOne c7S =
      .completed (addNewNodeToModelClass c7S ("profile") (.inst c7Rmi.fullname []))
    ∧ processRelationItem c7RelMany c7S =
        .completed (addNewNodeToModelClass c7S ("tag_set")
          (.inst c7Mgi.fullname [.inst c7Rmi.fullname []])) :=
  ⟨(((c7_related_manager_dispatch c7RelOne c7S).2 ("profile") ("m.P") c7Rmi
      (by decide) (by decide) (by decide)).1 (by decide)).1,
   (((c7_related_manager_dispatch c7RelMany c7S).2 ("tag_set") ("m.P") c7Rmi
      (by decide) (by decide) (by decide)).2 c7Mgi (Or.inr (by decide)) (by decide)).1⟩

/-! Claim C4: model-specific manager specialization by the class forge. -/

/-- Shape of one forged base: a placeholder-parametrized generic-manager
base is reparametrized with the concrete model; any other base is copied
unchanged. -/
def specializeBase (modelFullname : String) (b : MypyType) : MypyType :=
  if isAnyParametrizedManager b then
    match b with
    | .inst f _ => .inst f [.inst modelFullname []]
    | x => x
  else b

theorem forgeBases_spec (s : AnalyzerState) (mf : String) :
    ∀ l bs, forgeBases s mf l = some bs → bs = l.map (specializeBase mf) := by
  intro l
  induction l with
  | nil =>
    intro bs h
    simp [forgeBases] at h
    subst h
    simp
  | cons b rest ih =>
    intro bs h
    cases b with
    | any =>
      have hstep : forgeBases s mf (MypyType.any :: rest) =
          (forgeBases s mf rest).map (fun bs => MypyType.any :: bs) := by
        rw [forgeBases]
        intro f args hfa
        exact MypyType.noConfusion hfa
      rw [hstep] at h
      cases hr : forgeBases s mf rest with
      | none =>
        rw [hr] at h
        exact absurd h (by simp)
      | some bs2 =>
        rw [hr] at h
        have h2 : MypyType.any :: bs2 = bs := Option.some.inj h
        rw [← h2]
        simp [specializeBase, isAnyParametrizedManager, ih bs2 hr]
    | inst f args =>
      by_cases hp : isAnyParametrizedManager (MypyType.inst f args)
      · rw [forgeBases, if_pos hp] at h
        cases hl : lookupTypeInfo s.typeInfos f with
        | none =>
          rw [hl] at h
          exact absurd h (by simp)
        | some ti =>
          rw [hl] at h
          cases hr : forgeBases s mf rest with
          | none =>
            rw [hr] at h
            exact absurd h (by simp)
          | some bs2 =>
            rw [hr] at h
            have h2 : MypyType.inst f [MypyType.inst mf []] :: bs2 = bs := Option.some.inj h
            rw [← h2]
            simp [specializeBase, hp, ih bs2 hr]
      · rw [forgeBases, if_neg hp] at h
        cases hr : forgeBases s mf rest with
        | none =>
          rw [hr] at h
          exact absurd h (by simp)
        | some bs2 =>
          rw [hr] at h
          have h2 : MypyType.inst f args :: bs2 = bs := Option.some.inj h
          rw [← h2]
          simp [specializeBase, hp, ih bs2 hr]

theorem forgeManagerClass_spec (s : AnalyzerState) (newName : String) (bi : TypeInfo)
    (ct : MypyType) (s2 : AnalyzerState)
    (h : forgeManagerClass s newName bi = some (ct, s2)) :
    ct = .inst (s.modelInfo.moduleName ++ "." ++ newName) [.inst s.modelInfo.fullname []]
    ∧ ∃ ti, s2 = { s with typeInfos := insertTypeInfo s.typeInfos ti }
        ∧ ti.fullname = s.modelInfo.moduleName ++ "." ++ newName
        ∧ ti.bases = bi.bases.map (specializeBase s.modelInfo.fullname)
        ∧ ti.names.map Prod.fst = bi.names.map Prod.fst
        ∧ lookupTypeInfo s2.typeInfos (s.modelInfo.moduleName ++ "." ++ newName) = some ti := by
  unfold forgeManagerClass at h
  cases hb : forgeBases s s.modelInfo.fullname bi.bases with
  | none =>
    rw [hb] at h
    simp at h
  | some bs =>
    rw [hb] at h
    simp only [Option.some.injEq, Prod.mk.injEq] at h
    obtain ⟨hct, hs2⟩ := h
    refine ⟨hct.symm, _, hs2.symm, rfl, ?_, ?_, ?_⟩
    · exact (forgeBases_spec s s.modelInfo.fullname bi.bases bs hb).symm ▸ rfl
    · simp [List.map_map, Function.comp]
    · rw [← hs2]
      have := lookupTypeInfo_insertTypeInfo_self s.typeInfos
        { fullname := s.modelInfo.moduleName ++ "." ++ newName
          moduleName := s.modelInfo.moduleName
          names := bi.names.map
            (fun p => (p.1, copySymForForge
              (.inst (s.modelInfo.moduleName ++ "." ++ newName)
                [.inst s.modelInfo.fullname []]) p.2))
          bases := bs
          fromQuerysetManagers := []
          fallbackToAny := false
          inheritedMembers := [] }
      exact this

/-- C4 (amended): for a manager whose name is already a symbol of the
declaration and whose template manager type has a placeholder-parametrized
generic-manager base, the Managers step forges a new type named
`<model name>_<manager class name>` (underscore-separated, unlike the
claim), rebinds the manager attribute to the forged type instantiated with
the model, specializes every placeholder-parametrized base to the concrete
model, and copies exactly the member set of the template onto the forged
type. -/
theorem c4_manager_specialization (m : DjangoManager) (n : String) (mi : TypeInfo)
    (s : AnalyzerState) (ct : MypyType) (s2 : AnalyzerState)
    (hin : (lookupSym s.modelInfo.names n).isSome = true)
    (hany : hasAnyParametrizedManagerAsBase mi = true)
    (hforge : forgeManagerClass s (m.modelName ++ "_" ++ m.className) mi = some (ct, s2)) :
    addManagerWithInfo m n mi m.className s = .completed (addNewNodeToModelClass s2 n ct)
    ∧ ct = .inst (s.modelInfo.moduleName ++ "." ++ (m.modelName ++ "_" ++ m.className))
        [.inst s.modelInfo.fullname []]
    ∧ (∃ ti, lookupTypeInfo s2.typeInfos
          (s.modelInfo.moduleName ++ "." ++ (m.modelName ++ "_" ++ m.className)) = some ti
        ∧ ti.bases = mi.bases.map (specializeBase s.modelInfo.fullname)
        ∧ ti.names.map Prod.fst = mi.names.map Prod.fst)
    ∧ lookupSym (addNewNodeToModelClass s2 n ct).modelInfo.names n = some (.varSym ct) := by
  obtain ⟨hct, ti, hs2, hfn, hbases, hnames, hlook⟩ :=
    forgeManagerClass_spec s (m.modelName ++ "_" ++ m.className) mi ct s2 hforge
  refine ⟨?_, hct, ⟨ti, hlook, hbases, hnames⟩, ?_⟩
  · simp [addManagerWithInfo, hin, hany, hforge]
  · simp [addNewNodeToModelClass, lookupSym_insertSym_self]

/-- Concrete data for C4: a custom manager template named `MyManager`,
inherited as `objects`, on the model `m.A` named `A`. -/
def c4MI : TypeInfo :=
  { fullname := "m.MyManager", moduleName := "m",
    names := [("custom", SymValue.funcSym none [] .any)],
    bases := [.inst ("django.db.models.manager.Manager") [.any]],
    fromQuerysetManagers := [], fallbackToAny := false, inheritedMembers := [] }

def c4M : DjangoManager :=
  { className := "MyManager", classFullname := "m.MyManager",
    baseClassFullname := "django.db.models.manager.Manager", modelName := "A" }

def c4S : AnalyzerState :=
  { modelInfo :=
      { fullname := "m.A", moduleName := "m",
        names := [("objects", SymValue.varSym .any)], bases := [],
        fromQuerysetManagers := [], fallbackToAny := false, inheritedMembers := [] }
    typeInfos :=
      [ c4MI
      , { fullname := "django.db.models.manager.Manager",
          moduleName := "django.db.models.manager", names := [], bases := [],
          fromQuerysetManagers := [], fallbackToAny := false, inheritedMembers := [] } ]
    errors := []
    deferralRequested := false
    finalIteration := false }

def c4Ct : MypyType :=
  .inst ("m.A_MyManager") [.inst ("m.A") []]

def c4ForgedTI : TypeInfo :=
  { fullname := "m.A_MyManager", moduleName := "m",
    names := [("custom", SymValue.funcSym (some c4Ct) [] .any)],
    bases := [.inst ("django.db.models.manager.Manager") [.inst ("m.A") []]],
    fromQuerysetManagers := [], fallbackToAny := false, inheritedMembers := [] }

def c4S2 : AnalyzerState :=
  { c4S with typeInfos := insertTypeInfo c4S.typeInfos c4ForgedTI }

theorem c4_manager_specialization_witness :
    addManagerWithInfo c4M ("objects") c4MI c4M.className c4S =
      .completed (addNewNodeToModelClass c4S2 ("objects") c4Ct) :=
  (c4_manager_specialization c4M ("objects") c4MI c4S c4Ct c4S2
    (by decide) (by decide) (by decide)).1

def c4After : AnalyzerState :=
  addNewNodeToModelClass c4S2 ("objects") c4Ct

/-- C4, counterexample to the name format of the claim as stated: the
forged type is named with an underscore between model name and manager
class name (`A_MyManager`), not by direct concatenation (`AMyManager`);
no type of the concatenated name exists after the step. -/
theorem c4_counterexample :
    addManagerWithInfo c4M ("objects") c4MI c4M.className c4S = .completed c4After
    ∧ lookupSym c4After.modelInfo.names ("objects")
        = some (.varSym (.inst ("m.A_MyManager") [.inst ("m.A") []]))
    ∧ ("m.A_MyManager" : String) ≠ "m." ++ "A" ++ "MyManager"
    ∧ lookupTypeInfo c4After.typeInfos ("m." ++ "A" ++ "MyManager") = none
    ∧ lookupTypeInfo c4After.typeInfos ("m.A_MyManager") = some c4ForgedTI :=
  ⟨by decide, by decide, by decide, by decide, by decide⟩

/-! Claim C8: choice accessors. -/

theorem lookupTypeInfo_fullname (e : List TypeInfo) (k : String) (ti : TypeInfo)
    (h : lookupTypeInfo e k = some ti) : ti.fullname = k := by
  induction e with
  | nil => simp [lookupTypeInfo] at h
  | cons hd rest ih =>
    by_cases hh : hd.fullname = k
    · simp [lookupTypeInfo, hh] at h
      rw [← h]
      exact hh
    · simp [lookupTypeInfo, hh] at h
      exact ih h

/-- Characterization of the choice loop of `AddExtraFieldMethods`: when
`builtins.str` resolves, the loop completes, changes nothing but the
symbol table of the model class, and the resulting table maps exactly the
display names of choice-carrying fields to the zero-argument method
returning `builtins.str`. -/
theorem choiceLoop_spec (fields : List DjangoField) (s : AnalyzerState)
    (hstr : (lookupTypeInfo s.typeInfos ("builtins.str")).isSome = true) :
    ∃ s2, seqItems processChoiceField fields s = .completed s2
      ∧ s2.typeInfos = s.typeInfos
      ∧ s2.errors = s.errors
      ∧ s2.deferralRequested = s.deferralRequested
      ∧ s2.finalIteration = s.finalIteration
      ∧ s2.modelInfo.fullname = s.modelInfo.fullname
      ∧ s2.modelInfo.moduleName = s.modelInfo.moduleName
      ∧ s2.modelInfo.inheritedMembers = s.modelInfo.inheritedMembers
      ∧ ∀ k, lookupSym s2.modelInfo.names k =
          if fields.any (fun f => !f.choices.isEmpty && (getDisplayMethodName f.attname == k))
          then some (.funcSym none [] (.inst ("builtins.str") []))
          else lookupSym s.modelInfo.names k := by
  induction fields generalizing s with
  | nil =>
    refine ⟨s, by simp [seqItems], rfl, rfl, rfl, rfl, rfl, rfl, rfl, ?_⟩
    intro k
    simp
  | cons f rest ih =>
    by_cases hc : f.choices.isEmpty
    · have hstep : processChoiceField f s = .completed s := by
        simp [processChoiceField, hc]
      obtain ⟨s2, hrun, ht, he, hd, hf, hfn, hmn, him, hk⟩ := ih s hstr
      refine ⟨s2, ?_, ht, he, hd, hf, hfn, hmn, him, ?_⟩
      · simp [seqItems, hstep, hrun]
      · intro k
        rw [hk k]
        simp [List.any_cons, hc]
    · obtain ⟨si, hsi⟩ := Option.isSome_iff_exists.mp hstr
      have hsifn : si.fullname = "builtins.str" := lookupTypeInfo_fullname _ _ _ hsi
      have hstep : processChoiceField f s = .completed
          (addMethodToModelClass s (getDisplayMethodName f.attname) []
            (.inst ("builtins.str") [])) := by
        simp [processChoiceField, hc, hsi, hsifn]
      have hstr1 : (lookupTypeInfo (addMethodToModelClass s (getDisplayMethodName f.attname) []
          (.inst ("builtins.str") [])).typeInfos ("builtins.str")).isSome = true := hstr
      obtain ⟨s2, hrun, ht, he, hd, hf, hfn, hmn, him, hk⟩ :=
        ih (addMethodToModelClass s (getDisplayMethodName f.attname) []
          (.inst ("builtins.str") [])) hstr1
      refine ⟨s2, ?_, ht, he, hd, hf, hfn, hmn, him, ?_⟩
      · simp [seqItems, hstep, hrun]
      · intro k
        rw [hk k]
        by_cases hkk : getDisplayMethodName f.attname = k
        · have hkb : (getDisplayMethodName f.attname == k) = true := beq_iff_eq.mpr hkk
          by_cases hr : rest.any
              (fun f => !f.choices.isEmpty && (getDisplayMethodName f.attname == k)) = true
          · simp [List.any_cons, hc, hkb, hr]
          · simp only [Bool.not_eq_true] at hr
            simp only [List.any_cons, hc, hkb, hr]
            simp only [addMethodToModelClass]
            rw [← hkk]
            simp [lookupSym_insertSym_self]
        · have hkb : (getDisplayMethodName f.attname == k) = false := by
            simp [hkk]
          by_cases hr : rest.any
              (fun f => !f.choices.isEmpty && (getDisplayMethodName f.attname == k)) = true
          · simp [List.any_cons, hc, hkb, hr]
          · simp only [Bool.not_eq_true] at hr
            simp only [List.any_cons, hc, hkb, hr]
            simp only [addMethodToModelClass]
            simp [lookupSym_insertSym_ne _ _ _ _ (Ne.symm hkk)]

/-- The single symbol value written by the date loop for both of its
methods: `**kwargs` in, the own type of the model out. -/
def dateMethodVal (modelFullname : String) : SymValue :=
  .funcSym none [kwargsArg] (.inst modelFullname [])

/-- Characterization of the date loop of `AddExtraFieldMethods`: it always
completes, changes nothing but the symbol table of the model class, and
the resulting table maps exactly the next/previous accessor names of
non-nullable date fields to the kwargs method returning the own type of
the model. -/
theorem dateLoop_spec (fields : List DjangoField) (s : AnalyzerState) :
    ∃ s2, seqItems processDateField fields s = .completed s2
      ∧ s2.typeInfos = s.typeInfos
      ∧ s2.errors = s.errors
      ∧ s2.deferralRequested = s.deferralRequested
      ∧ s2.finalIteration = s.finalIteration
      ∧ s2.modelInfo.fullname = s.modelInfo.fullname
      ∧ s2.modelInfo.moduleName = s.modelInfo.moduleName
      ∧ s2.modelInfo.inheritedMembers = s.modelInfo.inheritedMembers
      ∧ ∀ k, lookupSym s2.modelInfo.names k =
          if fields.any (fun f => isDateish f &&
              (("get_next_by_" ++ f.attname == k) || ("get_previous_by_" ++ f.attname == k)))
          then some (dateMethodVal s.modelInfo.fullname)
          else lookupSym s.modelInfo.names k := by
  induction fields generalizing s with
  | nil =>
    refine ⟨s, by simp [seqItems], rfl, rfl, rfl, rfl, rfl, rfl, rfl, ?_⟩
    intro k
    simp
  | cons f rest ih =>
    by_cases hdf : isDateish f = true
    · have hstep : processDateField f s = .completed
          (addMethodToModelClass
            (addMethodToModelClass s ("get_next_by_" ++ f.attname) [kwargsArg]
              (.inst s.modelInfo.fullname []))
            ("get_previous_by_" ++ f.attname) [kwargsArg]
            (.inst s.modelInfo.fullname [])) := by
        simp [processDateField, hdf, addMethodToModelClass]
      obtain ⟨s2, hrun, ht, he, hd, hf, hfn, hmn, him, hk⟩ :=
        ih (addMethodToModelClass
            (addMethodToModelClass s ("get_next_by_" ++ f.attname) [kwargsArg]
              (.inst s.modelInfo.fullname []))
            ("get_previous_by_" ++ f.attname) [kwargsArg]
            (.inst s.modelInfo.fullname []))
      simp only [addMethodToModelClass] at hk
      refine ⟨s2, ?_, ?_, ?_, ?_, ?_, ?_, ?_, ?_, ?_⟩
      · simp [seqItems, hstep, hrun]
      · simpa [addMethodToModelClass] using ht
      · simpa [addMethodToModelClass] using he
      · simpa [addMethodToModelClass] using hd
      · simpa [addMethodToModelClass] using hf
      · simpa [addMethodToModelClass] using hfn
      · simpa [addMethodToModelClass] using hmn
      · simpa [addMethodToModelClass] using him
      · intro k
        rw [hk k]
        by_cases hr : (rest.any fun f => isDateish f &&
            ("get_next_by_" ++ f.attname == k || "get_previous_by_" ++ f.attname == k)) = true
        · simp [List.any_cons, hr]
        · simp only [Bool.not_eq_true] at hr
          by_cases hk2 : ("get_previous_by_" ++ f.attname) = k
          · have hb2 : (("get_previous_by_" ++ f.attname) == k) = true := beq_iff_eq.mpr hk2
            simp only [List.any_cons, hdf, hb2, hr, Bool.true_and, Bool.or_true,
              Bool.true_or, Bool.or_false, if_true, if_false]
            rw [← hk2]
            simp [lookupSym_insertSym_self, dateMethodVal]
          · have hb2 : (("get_previous_by_" ++ f.attname) == k) = false := by
              simp [hk2]
            rw [lookupSym_insertSym_ne _ _ _ _ (fun hh => hk2 hh.symm)]
            by_cases hk1 : ("get_next_by_" ++ f.attname) = k
            · have hb1 : (("get_next_by_" ++ f.attname) == k) = true := beq_iff_eq.mpr hk1
              simp only [List.any_cons, hdf, hb1, hb2, hr, Bool.true_and, Bool.true_or,
                Bool.or_false, if_true]
              rw [← hk1]
              simp [lookupSym_insertSym_self, dateMethodVal]
            · have hb1 : (("get_next_by_" ++ f.attname) == k) = false := by
                simp [hk1]
              rw [lookupSym_insertSym_ne _ _ _ _ (fun hh => hk1 hh.symm)]
              simp [List.any_cons, hb1, hb2, hr]
    · have hstep : processDateField f s = .completed s := by
        simp [processDateField, hdf]
      obtain ⟨s2, hrun, ht, he, hd, hf, hfn, hmn, him, hk⟩ := ih s
      refine ⟨s2, ?_, ht, he, hd, hf, hfn, hmn, him, ?_⟩
      · simp [seqItems, hstep, hrun]
      · intro k
        rw [hk k]
        simp only [Bool.not_eq_true] at hdf
        simp [List.any_cons, hdf]

/-- C8: with a backed model and a resolvable `builtins.str`, the
extra-field-methods step completes; every field with a non-empty choice
set gets the zero-argument method `get_<attname>_display` returning
`builtins.str` (provided no date accessor of the same model collides with
that name), and every name written by no field — in particular the display
name of any field without choices, absent collisions — is left exactly as
it was. -/
theorem c8_choice_accessor (pc : PluginCtx) (mc : DjangoModelCls) (s : AnalyzerState)
    (hb : getModelClsByFullname pc s.modelInfo.fullname = some mc)
    (hstr : (lookupTypeInfo s.typeInfos ("builtins.str")).isSome = true) :
    ∃ s2, runWithModelCls pc (addExtraFieldMethodsBody pc) s = .completed s2
      ∧ (∀ f ∈ mc.modelFields, f.choices.isEmpty = false →
          (∀ g ∈ mc.modelFields, isDateish g = true →
              ("get_next_by_" ++ g.attname ≠ getDisplayMethodName f.attname)
            ∧ ("get_previous_by_" ++ g.attname ≠ getDisplayMethodName f.attname)) →
          lookupSym s2.modelInfo.names (getDisplayMethodName f.attname)
            = some (.funcSym none [] (.inst ("builtins.str") [])))
      ∧ (∀ n, (∀ g ∈ mc.modelFields, g.choices.isEmpty = false →
              getDisplayMethodName g.attname ≠ n) →
          (∀ g ∈ mc.modelFields, isDateish g = true →
              ("get_next_by_" ++ g.attname ≠ n) ∧ ("get_previous_by_" ++ g.attname ≠ n)) →
          lookupSym s2.modelInfo.names n = lookupSym s.modelInfo.names n) := by
  obtain ⟨sa, hruna, hta, hea, hda, hfa, hfna, hmna, hima, hka⟩ :=
    choiceLoop_spec mc.modelFields s hstr
  obtain ⟨s2, hrunb, htb, heb, hdb, hfb, hfnb, hmnb, himb, hkb⟩ :=
    dateLoop_spec mc.modelFields sa
  have hrun : runWithModelCls pc (addExtraFieldMethodsBody pc) s = .completed s2 := by
    simp [runWithModelCls, hb, addExtraFieldMethodsBody, hruna, hrunb]
  refine ⟨s2, hrun, ?_, ?_⟩
  · intro f hf hc hdates
    have hdateAny : (mc.modelFields.any fun g => isDateish g &&
        ("get_next_by_" ++ g.attname == getDisplayMethodName f.attname
          || "get_previous_by_" ++ g.attname == getDisplayMethodName f.attname)) = false := by
      rw [List.any_eq_false]
      intro g hg
      by_cases hdg : isDateish g = true
      · obtain ⟨h1, h2⟩ := hdates g hg hdg
        simp [hdg, h1, h2]
      · simp only [Bool.not_eq_true] at hdg
        simp [hdg]
    have hchoiceAny : (mc.modelFields.any fun g => !g.choices.isEmpty &&
        (getDisplayMethodName g.attname == getDisplayMethodName f.attname)) = true := by
      rw [List.any_eq_true]
      exact ⟨f, hf, by simp [hc]⟩
    rw [hkb (getDisplayMethodName f.attname), hdateAny]
    simp only [Bool.false_eq_true, if_false]
    rw [hka (getDisplayMethodName f.attname), hchoiceAny]
    simp
  · intro n hchoices hdates
    have hdateAny : (mc.modelFields.any fun g => isDateish g &&
        ("get_next_by_" ++ g.attname == n || "get_previous_by_" ++ g.attname == n)) = false := by
      rw [List.any_eq_false]
      intro g hg
      by_cases hdg : isDateish g = true
      · obtain ⟨h1, h2⟩ := hdates g hg hdg
        simp [hdg, h1, h2]
      · simp only [Bool.not_eq_true] at hdg
        simp [hdg]
    have hchoiceAny : (mc.modelFields.any fun g => !g.choices.isEmpty &&
        (getDisplayMethodName g.attname == n)) = false := by
      rw [List.any_eq_false]
      intro g hg
      by_cases hcg : g.choices.isEmpty
      · simp [hcg]
      · have := hchoices g hg (Bool.eq_false_iff.mpr hcg)
        simp [this]
    rw [hkb n, hdateAny]
    simp only [Bool.false_eq_true, if_false]
    rw [hka n, hchoiceAny]
    simp

/-- Concrete data for C8: one field with two choices, one without. -/
def c8FChoice : DjangoField :=
  { name := "status", attname := "status", kind := .otherKind, null := false,
    choices := [("A", "Alpha"), ("B", "Beta")], classFullname := "m.CharField",
    relatedModelRepr := "", related := none }

def c8FPlain : DjangoField :=
  { name := "plain", attname := "plain", kind := .otherKind, null := false,
    choices := [], classFullname := "m.CharField", relatedModelRepr := "",
    related := none }

def c8Mc : DjangoModelCls :=
  { autoField := none
    metaFields := []
    managersMap := []
    defaultManagerClassFullname := "m.Manager"
    relations := []
    modelFields := [c8FChoice, c8FPlain] }

def c8Pc : PluginCtx :=
  { djangoModels := [("m.M", c8Mc)], oracle := fun _ _ => (.any, .any) }

def c8S : AnalyzerState :=
  { modelInfo :=
      { fullname := "m.M", moduleName := "m", names := [], bases := [],
        fromQuerysetManagers := [], fallbackToAny := false, inheritedMembers := [] }
    typeInfos :=
      [ { fullname := "builtins.str", moduleName := "builtins", names := [], bases := [],
          fromQuerysetManagers := [], fallbackToAny := false, inheritedMembers := [] } ]
    errors := []
    deferralRequested := false
    finalIteration := false }

theorem c8_choice_accessor_witness :
    ∃ s2, runWithModelCls c8Pc (addExtraFieldMethodsBody c8Pc) c8S = .completed s2
      ∧ lookupSym s2.modelInfo.names (getDisplayMethodName ("status"))
          = some (.funcSym none [] (.inst ("builtins.str") []))
      ∧ lookupSym s2.modelInfo.names (getDisplayMethodName ("plain")) = none := by
  obtain ⟨s2, hrun, h1, h2⟩ := c8_choice_accessor c8Pc c8Mc c8S (by decide) (by decide)
  refine ⟨s2, hrun, ?_, ?_⟩
  · have := h1 c8FChoice (by decide) (by decide) ?_
    · exact this
    · intro g hg hdg
      refine absurd ?_ (by decide : ¬(isDateish c8FChoice = true ∨ isDateish c8FPlain = true))
      simp [c8Mc] at hg
      cases hg with
      | inl h => exact Or.inl (h ▸ hdg)
      | inr h => exact Or.inr (h ▸ hdg)
  · have hu := h2 (getDisplayMethodName ("plain")) ?_ ?_
    · rw [hu]
      decide
    · intro g hg hcg
      simp [c8Mc] at hg
      cases hg with
      | inl h =>
        rw [h]
        decide
      | inr h => exact absurd hcg (by rw [h]; decide)
    · intro g hg hdg
      refine absurd ?_ (by decide : ¬(isDateish c8FChoice = true ∨ isDateish c8FPlain = true))
      simp [c8Mc] at hg
      cases hg with
      | inl h => exact Or.inl (h ▸ hdg)
      | inr h => exact Or.inr (h ▸ hdg)

/-! Claim C3: idempotence of the pipeline.  The symbol-table effect of one
pass is modelled as a straight-line program of writes: an `always` write
re-inserts its value unconditionally, an `ifAbsent` write fires only when
its key is neither present nor readable through a base class. -/

/-- One symbol-table write performed by a synthesis step. -/
inductive WOp where
  | always : String → SymValue → WOp
  | ifAbsent : String → Bool → SymValue → WOp
deriving DecidableEq

/-- The key written by a write. -/
def wkey : WOp → String
  | .always k _ => k
  | .ifAbsent k _ _ => k

/-- Execute one write on a symbol table. -/
def applyW (ns : SymTable) : WOp → SymTable
  | .always k v => insertSym ns k v
  | .ifAbsent k ex v => if (lookupSym ns k).isSome || ex then ns else insertSym ns k v

/-- Execute a program of writes, in order. -/
def runW : List WOp → SymTable → SymTable
  | [], ns => ns
  | op :: rest, ns => runW rest (applyW ns op)

theorem runW_append (a b : List WOp) (ns : SymTable) :
    runW (a ++ b) ns = runW b (runW a ns) := by
  induction a generalizing ns with
  | nil => simp [runW]
  | cons op rest ih => simp [runW, ih]

theorem lookupSym_applyW_ne (ns : SymTable) (op : WOp) (k : String)
    (h : wkey op ≠ k) : lookupSym (applyW ns op) k = lookupSym ns k := by
  cases op with
  | always k0 v =>
    exact lookupSym_insertSym_ne ns k0 k v (fun hh => h hh.symm)
  | ifAbsent k0 ex v =>
    simp only [applyW]
    by_cases hg : (lookupSym ns k0).isSome || ex
    · simp [hg]
    · simp only [hg, if_false, Bool.false_eq_true, if_neg]
      exact lookupSym_insertSym_ne ns k0 k v (fun hh => h hh.symm)

theorem lookupSym_applyW_isSome (ns : SymTable) (op : WOp) (k : String)
    (h : (lookupSym ns k).isSome = true) :
    (lookupSym (applyW ns op) k).isSome = true := by
  cases op with
  | always k0 v => exact lookupSym_isSome_insertSym ns k0 k v h
  | ifAbsent k0 ex v =>
    simp only [applyW]
    by_cases hg : (lookupSym ns k0).isSome || ex
    · simp [hg, h]
    · simp only [hg, Bool.false_eq_true, if_neg, if_false]
      exact lookupSym_isSome_insertSym ns k0 k v h

theorem lookupSym_runW_isSome (ops : List WOp) (ns : SymTable) (k : String)
    (h : (lookupSym ns k).isSome = true) :
    (lookupSym (runW ops ns) k).isSome = true := by
  induction ops generalizing ns with
  | nil => exact h
  | cons op rest ih => exact ih _ (lookupSym_applyW_isSome ns op k h)

theorem lookupSym_runW_ne (ops : List WOp) (ns : SymTable) (k : String)
    (h : k ∉ ops.map wkey) : lookupSym (runW ops ns) k = lookupSym ns k := by
  induction ops generalizing ns with
  | nil => rfl
  | cons op rest ih =>
    simp only [List.map_cons, List.mem_cons] at h
    push_neg at h
    rw [runW, ih _ h.2, lookupSym_applyW_ne ns op k (fun hh => h.1 hh.symm)]

/-- A table realizes a write when an `always` write would re-insert the
value already present and an `ifAbsent` write is disabled. -/
def opSatisfied (ns : SymTable) : WOp → Prop
  | .always k v => lookupSym ns k = some v
  | .ifAbsent k ex _ => ((lookupSym ns k).isSome || ex) = true

theorem opSatisfied_applyW_self (ns : SymTable) (op : WOp) :
    opSatisfied (applyW ns op) op := by
  cases op with
  | always k v => simp [applyW, opSatisfied, lookupSym_insertSym_self]
  | ifAbsent k ex v =>
    simp only [applyW, opSatisfied]
    by_cases hg : ((lookupSym ns k).isSome || ex) = true
    · simp [hg]
    · simp only [hg, Bool.false_eq_true, if_neg, if_false]
      simp [lookupSym_insertSym_self]

theorem opSatisfied_applyW_other (ns : SymTable) (op op2 : WOp)
    (hne : wkey op2 ≠ wkey op ∨ ∃ k ex v, op = .ifAbsent k ex v)
    (h : opSatisfied ns op) : opSatisfied (applyW ns op2) op := by
  cases op with
  | always k v =>
    cases hne with
    | inl hne =>
      simp only [opSatisfied] at h ⊢
      rw [lookupSym_applyW_ne ns op2 k hne]
      exact h
    | inr hne =>
      obtain ⟨_, _, _, hcon⟩ := hne
      exact WOp.noConfusion hcon
  | ifAbsent k ex v =>
    simp only [opSatisfied] at h ⊢
    rcases Bool.or_eq_true_iff.mp h with h1 | h1
    · simp [lookupSym_applyW_isSome ns op2 k h1]
    · simp [h1]

theorem opSatisfied_runW_preserved (ops : List WOp) (ns : SymTable) (op : WOp)
    (hkey : wkey op ∉ ops.map wkey ∨ ∃ k ex v, op = .ifAbsent k ex v)
    (h : opSatisfied ns op) : opSatisfied (runW ops ns) op := by
  induction ops generalizing ns with
  | nil => exact h
  | cons op2 rest ih =>
    rw [runW]
    apply ih
    · cases hkey with
      | inl hkey =>
        left
        simp only [List.map_cons, List.mem_cons] at hkey
        push_neg at hkey
        exact hkey.2
      | inr hkey => right; exact hkey
    · apply opSatisfied_applyW_other ns op op2 ?_ h
      cases hkey with
      | inl hkey =>
        left
        simp only [List.map_cons, List.mem_cons] at hkey
        push_neg at hkey
        exact fun hh => hkey.1 hh.symm
      | inr hkey => right; exact hkey

theorem runW_satisfies (ops : List WOp) (ns : SymTable)
    (hnd : (ops.map wkey).Nodup) :
    ∀ op ∈ ops, opSatisfied (runW ops ns) op := by
  induction ops generalizing ns with
  | nil =>
    intro op h
    exact absurd h (List.not_mem_nil op)
  | cons op0 rest ih =>
    simp only [List.map_cons, List.nodup_cons] at hnd
    intro op hop
    rcases List.mem_cons.mp hop with h | h
    · subst h
      rw [runW]
      exact opSatisfied_runW_preserved rest (applyW ns op) op (Or.inl hnd.1)
        (opSatisfied_applyW_self ns op)
    · rw [runW]
      exact ih (applyW ns op0) hnd.2 op h

theorem applyW_of_satisfied (ns : SymTable) (op : WOp)
    (h : opSatisfied ns op) : applyW ns op = ns := by
  cases op with
  | always k v => exact insertSym_self_of_lookup ns k v h
  | ifAbsent k ex v =>
    simp only [opSatisfied] at h
    simp [applyW, h]

theorem runW_of_satisfied (ops : List WOp) (ns : SymTable)
    (h : ∀ op ∈ ops, opSatisfied ns op) : runW ops ns = ns := by
  induction ops with
  | nil => rfl
  | cons op0 rest ih =>
    rw [runW, applyW_of_satisfied ns op0 (h op0 (List.mem_cons_self op0 rest))]
    exact ih (fun op hop => h op (List.mem_cons_of_mem op0 hop))

/-- Running the same program of distinct-key writes twice equals running
it once. -/
theorem runW_idem (ops : List WOp) (ns : SymTable)
    (hnd : (ops.map wkey).Nodup) : runW ops (runW ops ns) = runW ops ns :=
  runW_of_satisfied ops (runW ops ns) (runW_satisfies ops ns hnd)

/-- Write programs never store class references, so a `Meta` symbol that
is a class reference is never created by a run (only possibly replaced). -/
def isDataOp : WOp → Prop
  | .always _ (.typeRef _) => False
  | .ifAbsent _ _ (.typeRef _) => False
  | _ => True

theorem lookupSym_runW_data (ops : List WOp) (ns : SymTable) (k : String)
    (hdata : ∀ op ∈ ops, isDataOp op) :
    lookupSym (runW ops ns) k = lookupSym ns k
    ∨ ∀ f, lookupSym (runW ops ns) k ≠ some (.typeRef f) := by
  induction ops generalizing ns with
  | nil => exact Or.inl rfl
  | cons op0 rest ih =>
    rw [runW]
    have hdr : ∀ op ∈ rest, isDataOp op :=
      fun op hop => hdata op (List.mem_cons_of_mem op0 hop)
    rcases ih (applyW ns op0) hdr with h | h
    · rw [h]
      by_cases hkk : wkey op0 = k
      · subst hkk
        cases op0 with
        | always k0 v =>
          cases v with
          | typeRef f => exact absurd (hdata _ (List.mem_cons_self _ _)) (by simp [isDataOp])
          | varSym t =>
            right
            intro f
            simp [applyW, wkey, lookupSym_insertSym_self]
          | funcSym a b c =>
            right
            intro f
            simp [applyW, wkey, lookupSym_insertSym_self]
        | ifAbsent k0 ex v =>
          by_cases hg : ((lookupSym ns k0).isSome || ex) = true
          · left
            simp [applyW, hg]
          · cases v with
            | typeRef f => exact absurd (hdata _ (List.mem_cons_self _ _)) (by simp [isDataOp])
            | varSym t =>
              right
              intro f
              simp only [applyW, hg, Bool.false_eq_true, if_neg, if_false]
              simp [wkey, lookupSym_insertSym_self]
            | funcSym a b c =>
              right
              intro f
              simp only [applyW, hg, Bool.false_eq_true, if_neg, if_false]
              simp [wkey, lookupSym_insertSym_self]
      · left
        exact lookupSym_applyW_ne ns op0 k hkk
    · right
      exact h

/-- Resolvedness of one foreign-key field against a class table: the
related model is found, and unless it is abstract, the class of its
primary key field is known. -/
def fkResolved (env : List TypeInfo) (f : DjangoField) : Bool :=
  if f.kind = .foreignKey then
    match f.related with
    | none => false
    | some r => r.isAbstract || (lookupTypeInfo env r.pkClassFullname).isSome
  else true

/-- Resolvedness of one manager: its class is known, and its type has no
placeholder-parametrized manager base (so no forging is triggered). -/
def managerResolved (env : List TypeInfo) (m : DjangoManager) : Bool :=
  match lookupTypeInfo env m.classFullname with
  | some mi => !hasAnyParametrizedManagerAsBase mi
  | none => false

/-- Resolvedness of one reverse relation: when it has an accessor and a
related model, the related model resolves, and so does the related-manager
class for to-many kinds. -/
def relationResolved (env : List TypeInfo) (rel : DjangoRelation) : Bool :=
  match rel.accessorName with
  | none => true
  | some _ =>
    match rel.relatedModelFullname with
    | none => true
    | some rf =>
      (lookupTypeInfo env rf).isSome &&
      (match rel.kind with
       | .manyToOne => (lookupTypeInfo env RELATED_MANAGER_CLASS).isSome
       | .manyToMany => (lookupTypeInfo env RELATED_MANAGER_CLASS).isSome
       | _ => true)

/-- Resolvedness of the automatic identity field. -/
def autoFieldResolved (env : List TypeInfo) (mc : DjangoModelCls) : Bool :=
  match mc.autoField with
  | none => true
  | some af => (lookupTypeInfo env af.classFullname).isSome

/-- All dependencies of one declaration are already resolved against a
class table: every lookup any of the eight steps can perform succeeds, and
no manager triggers the forge. -/
def allDependenciesResolved (mc : DjangoModelCls) (env : List TypeInfo) : Bool :=
  autoFieldResolved env mc
  && mc.metaFields.all (fkResolved env)
  && mc.managersMap.all (fun p => managerResolved env p.2)
  && (lookupTypeInfo env mc.defaultManagerClassFullname).isSome
  && mc.relations.all (relationResolved env)
  && (lookupTypeInfo env ("builtins.str")).isSome
  && (lookupTypeInfo env OPTIONS_CLASS_FULLNAME).isSome

/-- The class-table effect of the Permissive Nested Options step. -/
def metaEnv (s : AnalyzerState) : List TypeInfo :=
  match getNestedMetaNode s with
  | none => s.typeInfos
  | some f =>
    match lookupTypeInfo s.typeInfos f with
    | none => s.typeInfos
    | some mi => insertTypeInfo s.typeInfos { mi with fallbackToAny := true }

theorem injectAny_char (pc : PluginCtx) (s : AnalyzerState) :
    injectAnyAsBaseForNestedMetaRun pc s = .completed { s with typeInfos := metaEnv s } := by
  rw [injectAnyAsBaseForNestedMetaRun, metaEnv]
  cases hm : getNestedMetaNode s with
  | none => rfl
  | some f =>
    dsimp only
    cases hl : lookupTypeInfo s.typeInfos f with
    | none => rfl
    | some mi => rfl

theorem metaEnv_lookup_cases (s : AnalyzerState) (k : String) :
    lookupTypeInfo (metaEnv s) k = lookupTypeInfo s.typeInfos k
    ∨ ∃ mi, lookupTypeInfo s.typeInfos k = some mi
        ∧ lookupTypeInfo (metaEnv s) k = some { mi with fallbackToAny := true } := by
  rw [metaEnv]
  cases hm : getNestedMetaNode s with
  | none => exact Or.inl rfl
  | some f =>
    dsimp only
    cases hl : lookupTypeInfo s.typeInfos f with
    | none => exact Or.inl rfl
    | some mi =>
      dsimp only
      have hfn : mi.fullname = f := lookupTypeInfo_fullname _ _ _ hl
      by_cases hk : k = mi.fullname
      · right
        refine ⟨mi, ?_, ?_⟩
        · rw [hk, hfn]
          exact hl
        · rw [hk]
          exact lookupTypeInfo_insertTypeInfo_self s.typeInfos
            { mi with fallbackToAny := true }
      · left
        exact lookupTypeInfo_insertTypeInfo_ne s.typeInfos
          { mi with fallbackToAny := true } k hk

theorem metaEnv_isSome (s : AnalyzerState) (k : String) :
    (lookupTypeInfo (metaEnv s) k).isSome = (lookupTypeInfo s.typeInfos k).isSome := by
  rcases metaEnv_lookup_cases s k with h | ⟨mi, h1, h2⟩
  · rw [h]
  · rw [h1, h2]
    rfl

theorem metaEnv_managerResolved (s : AnalyzerState) (m : DjangoManager) :
    managerResolved (metaEnv s) m = managerResolved s.typeInfos m := by
  unfold managerResolved
  rcases metaEnv_lookup_cases s m.classFullname with h | ⟨mi, h1, h2⟩
  · rw [h]
  · rw [h1, h2]
    simp [hasAnyParametrizedManagerAsBase]

theorem metaEnv_fkResolved (s : AnalyzerState) (f : DjangoField) :
    fkResolved (metaEnv s) f = fkResolved s.typeInfos f := by
  unfold fkResolved
  cases hf : f.related with
  | none => rfl
  | some r => simp [metaEnv_isSome]

theorem metaEnv_relationResolved (s : AnalyzerState) (rel : DjangoRelation) :
    relationResolved (metaEnv s) rel = relationResolved s.typeInfos rel := by
  unfold relationResolved
  cases rel.accessorName with
  | none => rfl
  | some att =>
    cases rel.relatedModelFullname with
    | none => rfl
    | some rf =>
      cases rel.kind <;> simp [metaEnv_isSome]

theorem metaEnv_autoFieldResolved (s : AnalyzerState) (mc : DjangoModelCls) :
    autoFieldResolved (metaEnv s) mc = autoFieldResolved s.typeInfos mc := by
  unfold autoFieldResolved
  cases mc.autoField with
  | none => rfl
  | some af => simp [metaEnv_isSome]

theorem list_all_congr {α : Type} (l : List α) (p q : α → Bool)
    (h : ∀ x ∈ l, p x = q x) : l.all p = l.all q := by
  induction l with
  | nil => rfl
  | cons x xs ih =>
    simp only [List.all_cons]
    rw [h x (List.mem_cons_self x xs),
      ih (fun y hy => h y (List.mem_cons_of_mem x hy))]

theorem metaEnv_allResolved (s : AnalyzerState) (mc : DjangoModelCls) :
    allDependenciesResolved mc (metaEnv s) = allDependenciesResolved mc s.typeInfos := by
  unfold allDependenciesResolved
  rw [metaEnv_autoFieldResolved, metaEnv_isSome, metaEnv_isSome, metaEnv_isSome,
    list_all_congr mc.metaFields _ _ (fun f _ => metaEnv_fkResolved s f),
    list_all_congr mc.managersMap _ _ (fun p _ => metaEnv_managerResolved s p.2),
    list_all_congr mc.relations _ _ (fun rel _ => metaEnv_relationResolved s rel)]

/-- Update only the symbol table of the processed class. -/
def setNames (t : AnalyzerState) (ns : SymTable) : AnalyzerState :=
  { t with modelInfo := { t.modelInfo with names := ns } }

theorem setNames_self (t : AnalyzerState) : setNames t t.modelInfo.names = t := rfl

theorem runW_single_always (k : String) (v : SymValue) (ns : SymTable) :
    runW [WOp.always k v] ns = insertSym ns k v := rfl

theorem runW_single_ifAbsent (k : String) (ex : Bool) (v : SymValue) (ns : SymTable) :
    runW [WOp.ifAbsent k ex v] ns =
      if ((lookupSym ns k).isSome || ex) = true then ns else insertSym ns k v := by
  simp [runW, applyW]

/-- Writes of the Default Primary Key step. -/
def autoFieldOps (pc : PluginCtx) (inh : List String) (mc : DjangoModelCls) : List WOp :=
  match mc.autoField with
  | none => []
  | some af =>
    [.ifAbsent af.attname (inh.contains af.attname)
      (.varSym (.inst af.classFullname
        [(pc.oracle af.classFullname false).1, (pc.oracle af.classFullname false).2]))]

/-- Writes of one foreign key in the Relation Shadow Ids step (for a field
whose related model resolves). -/
def fkOps (pc : PluginCtx) (f : DjangoField) : List WOp :=
  if f.kind = .foreignKey then
    match f.related with
    | some r =>
      if r.isAbstract then []
      else
        [.always f.attname (.varSym (.inst r.pkClassFullname
          [(pc.oracle r.pkClassFullname f.null).1, (pc.oracle r.pkClassFullname f.null).2]))]
    | none => []
  else []

/-- Writes of one manager in the Managers step, in the non-forging case. -/
def managerOps (mf : String) (p : String × DjangoManager) : List WOp :=
  [.ifAbsent p.1 false (.varSym (.inst p.2.classFullname [.inst mf []]))]

/-- Writes of the Default Manager step. -/
def defaultManagerOps (mf : String) (mc : DjangoModelCls) : List WOp :=
  [.ifAbsent ("_default_manager") false
    (.varSym (.inst mc.defaultManagerClassFullname [.inst mf []]))]

/-- Writes of one reverse relation in the Related Managers step. -/
def relationOps (rel : DjangoRelation) : List WOp :=
  match rel.accessorName with
  | none => []
  | some att =>
    match rel.relatedModelFullname with
    | none => []
    | some rf =>
      match rel.kind with
      | .oneToOne => [.always att (.varSym (.inst rf []))]
      | .manyToOne => [.always att (.varSym (.inst RELATED_MANAGER_CLASS [.inst rf []]))]
      | .manyToMany => [.always att (.varSym (.inst RELATED_MANAGER_CLASS [.inst rf []]))]
      | .otherRel => []

/-- Writes of one field in the choice loop. -/
def choiceOps (f : DjangoField) : List WOp :=
  if f.choices.isEmpty then []
  else [.always (getDisplayMethodName f.attname) (.funcSym none [] (.inst ("builtins.str") []))]

/-- Writes of one field in the date loop. -/
def dateOps (mf : String) (f : DjangoField) : List WOp :=
  if isDateish f then
    [.always ("get_next_by_" ++ f.attname) (dateMethodVal mf),
     .always ("get_previous_by_" ++ f.attname) (dateMethodVal mf)]
  else []

/-- Writes of the Metadata Handle step. -/
def metaOps (mf : String) : List WOp :=
  [.ifAbsent ("_meta") false (.varSym (.inst OPTIONS_CLASS_FULLNAME [.inst mf []]))]

/-- All the symbol-table writes of one pass over a declaration whose
dependencies are resolved, in pipeline order. -/
def pipelineOps (pc : PluginCtx) (mc : DjangoModelCls) (mf : String)
    (inh : List String) : List WOp :=
  autoFieldOps pc inh mc
  ++ (mc.metaFields.map (fkOps pc)).flatten
  ++ (mc.managersMap.map (managerOps mf)).flatten
  ++ defaultManagerOps mf mc
  ++ (mc.relations.map relationOps).flatten
  ++ (mc.modelFields.map choiceOps).flatten
  ++ (mc.modelFields.map (dateOps mf)).flatten
  ++ metaOps mf

theorem step2_char (pc : PluginCtx) (mc : DjangoModelCls) (t : AnalyzerState)
    (hb : getModelClsByFullname pc t.modelInfo.fullname = some mc)
    (hres : autoFieldResolved t.typeInfos mc = true) :
    runWithModelCls pc (addDefaultPrimaryKeyBody pc) t =
      .completed (setNames t
        (runW (autoFieldOps pc t.modelInfo.inheritedMembers mc) t.modelInfo.names)) := by
  rw [runWithModelCls, hb]
  dsimp only
  unfold addDefaultPrimaryKeyBody autoFieldOps
  cases haf : mc.autoField with
  | none =>
    dsimp only
    rw [runW, setNames_self]
  | some af =>
    dsimp only
    rw [autoFieldResolved, haf] at hres
    dsimp only at hres
    rw [runW_single_ifAbsent]
    by_cases hr : hasReadableMember t af.attname = true
    · rw [if_pos hr]
      have hg : ((lookupSym t.modelInfo.names af.attname).isSome
          || t.modelInfo.inheritedMembers.contains af.attname) = true := hr
      rw [if_pos hg, setNames_self]
    · rw [if_neg hr]
      have hg : ¬ ((lookupSym t.modelInfo.names af.attname).isSome
          || t.modelInfo.inheritedMembers.contains af.attname) = true := hr
      rw [if_neg hg]
      obtain ⟨fi, hfi⟩ := Option.isSome_iff_exists.mp hres
      have hfn : fi.fullname = af.classFullname := lookupTypeInfo_fullname _ _ _ hfi
      rw [hfi]
      dsimp only
      rw [hfn]
      rfl

theorem fkLoop_char (pc : PluginCtx) :
    ∀ (fields : List DjangoField) (t : AnalyzerState),
    fields.all (fkResolved t.typeInfos) = true →
    seqItems (processFkField pc) fields t =
      .completed (setNames t (runW ((fields.map (fkOps pc)).flatten) t.modelInfo.names)) := by
  intro fields
  induction fields with
  | nil =>
    intro t _
    rw [seqItems]
    simp only [List.map_nil, List.flatten_nil]
    rw [runW, setNames_self]
  | cons f rest ih =>
    intro t hall
    simp only [List.all_cons, Bool.and_eq_true] at hall
    obtain ⟨hf, hrest⟩ := hall
    simp only [List.map_cons, List.flatten_cons]
    rw [runW_append]
    by_cases hk : f.kind = .foreignKey
    · rw [fkResolved, if_pos hk] at hf
      cases hrel : f.related with
      | none =>
        rw [hrel] at hf
        exact absurd hf (by simp)
      | some r =>
        rw [hrel] at hf
        by_cases habs : r.isAbstract = true
        · have hstep : processFkField pc f t = .completed t := by
            simp [processFkField, hk, hrel, habs]
          rw [seqItems, hstep]
          dsimp only
          rw [fkOps, if_pos hk, hrel]
          dsimp only
          rw [if_pos habs, runW]
          exact ih t hrest
        · have hsome : (lookupTypeInfo t.typeInfos r.pkClassFullname).isSome = true := by
            rcases Bool.or_eq_true_iff.mp hf with h | h
            · exact absurd h habs
            · exact h
          obtain ⟨fi, hfi⟩ := Option.isSome_iff_exists.mp hsome
          have hfn : fi.fullname = r.pkClassFullname := lookupTypeInfo_fullname _ _ _ hfi
          have hstep : processFkField pc f t = .completed
              (setNames t (insertSym t.modelInfo.names f.attname
                (.varSym (.inst r.pkClassFullname
                  [(pc.oracle r.pkClassFullname f.null).1,
                   (pc.oracle r.pkClassFullname f.null).2])))) := by
            simp [processFkField, hk, hrel, habs, hfi, hfn, addNewNodeToModelClass, setNames]
          rw [seqItems, hstep]
          dsimp only
          rw [fkOps, if_pos hk, hrel]
          dsimp only
          rw [if_neg habs, runW_single_always]
          exact ih _ hrest
    · have hstep : processFkField pc f t = .completed t := by
        simp [processFkField, hk]
      rw [seqItems, hstep]
      dsimp only
      rw [fkOps, if_neg hk, runW]
      exact ih t hrest

theorem step3_char (pc : PluginCtx) (mc : DjangoModelCls) (t : AnalyzerState)
    (hb : getModelClsByFullname pc t.modelInfo.fullname = some mc)
    (hres : mc.metaFields.all (fkResolved t.typeInfos) = true) :
    runWithModelCls pc (addRelatedModelsIdBody pc) t =
      .completed (setNames t
        (runW ((mc.metaFields.map (fkOps pc)).flatten) t.modelInfo.names)) := by
  rw [runWithModelCls, hb]
  dsimp only
  rw [addRelatedModelsIdBody]
  exact fkLoop_char pc mc.metaFields t hres

theorem managerLoop_char :
    ∀ (managers : List (String × DjangoManager)) (t : AnalyzerState),
    managers.all (fun p => managerResolved t.typeInfos p.2) = true →
    seqItems processManagerItem managers t =
      .completed (setNames t
        (runW ((managers.map (managerOps t.modelInfo.fullname)).flatten) t.modelInfo.names)) := by
  intro managers
  induction managers with
  | nil =>
    intro t _
    rw [seqItems]
    simp only [List.map_nil, List.flatten_nil]
    rw [runW, setNames_self]
  | cons p rest ih =>
    intro t hall
    simp only [List.all_cons, Bool.and_eq_true] at hall
    obtain ⟨hm, hrest⟩ := hall
    obtain ⟨n, m⟩ := p
    rw [managerResolved] at hm
    cases hmi : lookupTypeInfo t.typeInfos m.classFullname with
    | none =>
      rw [hmi] at hm
      exact absurd hm (by simp)
    | some mi =>
      rw [hmi] at hm
      dsimp only at hm
      have hany : hasAnyParametrizedManagerAsBase mi = false := by
        simpa using hm
      have hfn : mi.fullname = m.classFullname := lookupTypeInfo_fullname _ _ _ hmi
      simp only [List.map_cons, List.flatten_cons]
      rw [runW_append]
      by_cases hn : (lookupSym t.modelInfo.names n).isSome = true
      · have hstep : processManagerItem (n, m) t = .completed t := by
          simp [processManagerItem, hmi, addManagerWithInfo, hn, hany]
        rw [seqItems, hstep]
        dsimp only
        rw [managerOps, runW_single_ifAbsent]
        rw [if_pos (by simp [hn])]
        exact ih t hrest
      · have hstep : processManagerItem (n, m) t = .completed
            (setNames t (insertSym t.modelInfo.names n
              (.varSym (.inst m.classFullname [.inst t.modelInfo.fullname []])))) := by
          simp [processManagerItem, hmi, addManagerWithInfo, hn, hany, hfn,
            addNewNodeToModelClass, setNames]
        rw [seqItems, hstep]
        dsimp only
        rw [managerOps, runW_single_ifAbsent, if_neg (by simp [hn])]
        exact ih _ hrest

theorem step4_char (pc : PluginCtx) (mc : DjangoModelCls) (t : AnalyzerState)
    (hb : getModelClsByFullname pc t.modelInfo.fullname = some mc)
    (hres : mc.managersMap.all (fun p => managerResolved t.typeInfos p.2) = true) :
    runWithModelCls pc (addManagersBody pc) t =
      .completed (setNames t
        (runW ((mc.managersMap.map (managerOps t.modelInfo.fullname)).flatten)
          t.modelInfo.names)) := by
  rw [runWithModelCls, hb]
  dsimp only
  rw [addManagersBody]
  exact managerLoop_char mc.managersMap t hres

theorem step5_char (pc : PluginCtx) (mc : DjangoModelCls) (t : AnalyzerState)
    (hb : getModelClsByFullname pc t.modelInfo.fullname = some mc)
    (hres : (lookupTypeInfo t.typeInfos mc.defaultManagerClassFullname).isSome = true) :
    runWithModelCls pc (addDefaultManagerBody pc) t =
      .completed (setNames t
        (runW (defaultManagerOps t.modelInfo.fullname mc) t.modelInfo.names)) := by
  rw [runWithModelCls, hb]
  dsimp only
  unfold addDefaultManagerBody defaultManagerOps
  rw [runW_single_ifAbsent]
  by_cases hn : (lookupSym t.modelInfo.names ("_default_manager")).isSome = true
  · rw [if_pos hn, if_pos (by simp [hn]), setNames_self]
  · rw [if_neg hn, if_neg (by simp [hn])]
    obtain ⟨di, hdi⟩ := Option.isSome_iff_exists.mp hres
    have hfn : di.fullname = mc.defaultManagerClassFullname :=
      lookupTypeInfo_fullname _ _ _ hdi
    rw [hdi]
    dsimp only
    rw [hfn]
    rfl

theorem relLoop_char :
    ∀ (rels : List DjangoRelation) (t : AnalyzerState),
    rels.all (relationResolved t.typeInfos) = true →
    seqItems processRelationItem rels t =
      .completed (setNames t (runW ((rels.map relationOps).flatten) t.modelInfo.names)) := by
  intro rels
  induction rels with
  | nil =>
    intro t _
    rw [seqItems]
    simp only [List.map_nil, List.flatten_nil]
    rw [runW, setNames_self]
  | cons rel rest ih =>
    intro t hall
    simp only [List.all_cons, Bool.and_eq_true] at hall
    obtain ⟨hr, hrest⟩ := hall
    simp only [List.map_cons, List.flatten_cons]
    rw [runW_append]
    rw [relationResolved] at hr
    cases hacc : rel.accessorName with
    | none =>
      have hstep : processRelationItem rel t = .completed t := by
        simp [processRelationItem, hacc]
      rw [seqItems, hstep]
      dsimp only
      rw [relationOps, hacc]
      dsimp only
      rw [runW]
      exact ih t hrest
    | some att =>
      rw [hacc] at hr
      dsimp only at hr
      cases hrf : rel.relatedModelFullname with
      | none =>
        have hstep : processRelationItem rel t = .completed t := by
          simp [processRelationItem, hacc, hrf]
        rw [seqItems, hstep]
        dsimp only
        rw [relationOps, hacc]
        dsimp only
        rw [hrf]
        dsimp only
        rw [runW]
        exact ih t hrest
      | some rf =>
        rw [hrf] at hr
        dsimp only at hr
        rw [Bool.and_eq_true] at hr
        obtain ⟨hrm, hkind⟩ := hr
        obtain ⟨rmi, hrmi⟩ := Option.isSome_iff_exists.mp hrm
        have hrfn : rmi.fullname = rf := lookupTypeInfo_fullname _ _ _ hrmi
        cases hkd : rel.kind with
        | oneToOne =>
          have hstep : processRelationItem rel t = .completed
              (setNames t (insertSym t.modelInfo.names att
                (.varSym (.inst rf [])))) := by
            simp [processRelationItem, hacc, hrf, hrmi, hkd, hrfn,
              addNewNodeToModelClass, setNames]
          rw [seqItems, hstep]
          dsimp only
          rw [relationOps, hacc]
          dsimp only
          rw [hrf]
          dsimp only
          rw [hkd]
          dsimp only
          rw [runW_single_always]
          exact ih _ hrest
        | manyToOne =>
          rw [hkd] at hkind
          dsimp only at hkind
          obtain ⟨mgi, hmgi⟩ := Option.isSome_iff_exists.mp hkind
          have hmfn : mgi.fullname = RELATED_MANAGER_CLASS :=
            lookupTypeInfo_fullname _ _ _ hmgi
          have hstep : processRelationItem rel t = .completed
              (setNames t (insertSym t.modelInfo.names att
                (.varSym (.inst RELATED_MANAGER_CLASS [.inst rf []])))) := by
            simp [processRelationItem, hacc, hrf, hrmi, hkd, hrfn, hmgi, hmfn,
              addNewNodeToModelClass, setNames]
          rw [seqItems, hstep]
          dsimp only
          rw [relationOps, hacc]
          dsimp only
          rw [hrf]
          dsimp only
          rw [hkd]
          dsimp only
          rw [runW_single_always]
          exact ih _ hrest
        | manyToMany =>
          rw [hkd] at hkind
          dsimp only at hkind
          obtain ⟨mgi, hmgi⟩ := Option.isSome_iff_exists.mp hkind
          have hmfn : mgi.fullname = RELATED_MANAGER_CLASS :=
            lookupTypeInfo_fullname _ _ _ hmgi
          have hstep : processRelationItem rel t = .completed
              (setNames t (insertSym t.modelInfo.names att
                (.varSym (.inst RELATED_MANAGER_CLASS [.inst rf []])))) := by
            simp [processRelationItem, hacc, hrf, hrmi, hkd, hrfn, hmgi, hmfn,
              addNewNodeToModelClass, setNames]
          rw [seqItems, hstep]
          dsimp only
          rw [relationOps, hacc]
          dsimp only
          rw [hrf]
          dsimp only
          rw [hkd]
          dsimp only
          rw [runW_single_always]
          exact ih _ hrest
        | otherRel =>
          have hstep : processRelationItem rel t = .completed t := by
            simp [processRelationItem, hacc, hrf, hrmi, hkd]
          rw [seqItems, hstep]
          dsimp only
          rw [relationOps, hacc]
          dsimp only
          rw [hrf]
          dsimp only
          rw [hkd]
          dsimp only
          rw [runW]
          exact ih t hrest

theorem step6_char (pc : PluginCtx) (mc : DjangoModelCls) (t : AnalyzerState)
    (hb : getModelClsByFullname pc t.modelInfo.fullname = some mc)
    (hres : mc.relations.all (relationResolved t.typeInfos) = true) :
    runWithModelCls pc (addRelatedManagersBody pc) t =
      .completed (setNames t
        (runW ((mc.relations.map relationOps).flatten) t.modelInfo.names)) := by
  rw [runWithModelCls, hb]
  dsimp only
  rw [addRelatedManagersBody]
  exact relLoop_char mc.relations t hres

theorem choiceLoop_char :
    ∀ (fields : List DjangoField) (t : AnalyzerState),
    (lookupTypeInfo t.typeInfos ("builtins.str")).isSome = true →
    seqItems processChoiceField fields t =
      .completed (setNames t (runW ((fields.map choiceOps).flatten) t.modelInfo.names)) := by
  intro fields
  induction fields with
  | nil =>
    intro t _
    rw [seqItems]
    simp only [List.map_nil, List.flatten_nil]
    rw [runW, setNames_self]
  | cons f rest ih =>
    intro t hstr
    simp only [List.map_cons, List.flatten_cons]
    rw [runW_append]
    by_cases hc : f.choices.isEmpty = true
    · have hstep : processChoiceField f t = .completed t := by
        simp [processChoiceField, hc]
      rw [seqItems, hstep]
      dsimp only
      rw [choiceOps, if_pos hc, runW]
      exact ih t hstr
    · obtain ⟨si, hsi⟩ := Option.isSome_iff_exists.mp hstr
      have hsfn : si.fullname = "builtins.str" := lookupTypeInfo_fullname _ _ _ hsi
      have hstep : processChoiceField f t = .completed
          (setNames t (insertSym t.modelInfo.names (getDisplayMethodName f.attname)
            (.funcSym none [] (.inst ("builtins.str") [])))) := by
        simp [processChoiceField, hc, hsi, hsfn, addMethodToModelClass, setNames]
      rw [seqItems, hstep]
      dsimp only
      rw [choiceOps, if_neg hc, runW_single_always]
      exact ih _ hstr

theorem dateLoop_char :
    ∀ (fields : List DjangoField) (t : AnalyzerState),
    seqItems processDateField fields t =
      .completed (setNames t
        (runW ((fields.map (dateOps t.modelInfo.fullname)).flatten) t.modelInfo.names)) := by
  intro fields
  induction fields with
  | nil =>
    intro t
    rw [seqItems]
    simp only [List.map_nil, List.flatten_nil]
    rw [runW, setNames_self]
  | cons f rest ih =>
    intro t
    simp only [List.map_cons, List.flatten_cons]
    rw [runW_append]
    by_cases hd : isDateish f = true
    · have hstep : processDateField f t = .completed
          (setNames t (insertSym
            (insertSym t.modelInfo.names ("get_next_by_" ++ f.attname)
              (dateMethodVal t.modelInfo.fullname))
            ("get_previous_by_" ++ f.attname)
            (dateMethodVal t.modelInfo.fullname))) := by
        simp [processDateField, hd, addMethodToModelClass, setNames, dateMethodVal]
      rw [seqItems, hstep]
      dsimp only
      rw [dateOps, if_pos hd]
      rw [runW, runW, runW]
      dsimp only [applyW]
      exact ih _
    · have hstep : processDateField f t = .completed t := by
        simp [processDateField, hd]
      rw [seqItems, hstep]
      dsimp only
      rw [dateOps, if_neg hd, runW]
      exact ih t

theorem step7_char (pc : PluginCtx) (mc : DjangoModelCls) (t : AnalyzerState)
    (hb : getModelClsByFullname pc t.modelInfo.fullname = some mc)
    (hstr : (lookupTypeInfo t.typeInfos ("builtins.str")).isSome = true) :
    runWithModelCls pc (addExtraFieldMethodsBody pc) t =
      .completed (setNames t
        (runW ((mc.modelFields.map choiceOps).flatten
          ++ (mc.modelFields.map (dateOps t.modelInfo.fullname)).flatten)
          t.modelInfo.names)) := by
  rw [runWithModelCls, hb]
  dsimp only
  rw [addExtraFieldMethodsBody]
  rw [choiceLoop_char mc.modelFields t hstr]
  dsimp only
  rw [runW_append]
  exact dateLoop_char mc.modelFields _

theorem step8_char (pc : PluginCtx) (mc : DjangoModelCls) (t : AnalyzerState)
    (hb : getModelClsByFullname pc t.modelInfo.fullname = some mc)
    (hres : (lookupTypeInfo t.typeInfos OPTIONS_CLASS_FULLNAME).isSome = true) :
    runWithModelCls pc (addMetaOptionsBody pc) t =
      .completed (setNames t (runW (metaOps t.modelInfo.fullname) t.modelInfo.names)) := by
  rw [runWithModelCls, hb]
  dsimp only
  unfold addMetaOptionsBody metaOps
  rw [runW_single_ifAbsent]
  by_cases hn : (lookupSym t.modelInfo.names ("_meta")).isSome = true
  · rw [if_pos hn, if_pos (by simp [hn]), setNames_self]
  · rw [if_neg hn, if_neg (by simp [hn])]
    obtain ⟨oi, hoi⟩ := Option.isSome_iff_exists.mp hres
    have hfn : oi.fullname = OPTIONS_CLASS_FULLNAME := lookupTypeInfo_fullname _ _ _ hoi
    rw [hoi]
    dsimp only
    rw [hfn]
    rfl

theorem runSteps_cons_completed (st : AnalyzerState → StepResult)
    (rest : List (AnalyzerState → StepResult)) (s t : AnalyzerState)
    (h : st s = .completed t) : runSteps (st :: rest) s = runSteps rest t := by
  rw [runSteps, h]
  rfl

/-- Shape of every intermediate state of a fully resolved pass: the class
table carries the nested-options update, the symbol table carries the
writes so far, everything else is untouched. -/
def midState (s : AnalyzerState) (ns : SymTable) : AnalyzerState :=
  setNames { s with typeInfos := metaEnv s } ns

/-- Characterization of one whole pass: under backing and resolved
dependencies, the pipeline performs the Permissive Nested Options update
on the class table and the straight-line write program on the symbol
table of the declaration, and nothing else. -/
theorem pipeline_char (pc : PluginCtx) (mc : DjangoModelCls) (s : AnalyzerState)
    (hb : getModelClsByFullname pc s.modelInfo.fullname = some mc)
    (hres : allDependenciesResolved mc s.typeInfos = true) :
    processModelClass pc s =
      midState s
        (runW (pipelineOps pc mc s.modelInfo.fullname s.modelInfo.inheritedMembers)
          s.modelInfo.names) := by
  rw [allDependenciesResolved] at hres
  simp only [Bool.and_eq_true] at hres
  obtain ⟨⟨⟨⟨⟨⟨h1, h2⟩, h3⟩, h4⟩, h5⟩, h6⟩, h7⟩ := hres
  have e1 : autoFieldResolved (metaEnv s) mc = true := by
    rw [metaEnv_autoFieldResolved]
    exact h1
  have e2 : mc.metaFields.all (fkResolved (metaEnv s)) = true := by
    rw [list_all_congr mc.metaFields _ _ (fun f _ => metaEnv_fkResolved s f)]
    exact h2
  have e3 : mc.managersMap.all (fun p => managerResolved (metaEnv s) p.2) = true := by
    rw [list_all_congr mc.managersMap _ _ (fun p _ => metaEnv_managerResolved s p.2)]
    exact h3
  have e4 : (lookupTypeInfo (metaEnv s) mc.defaultManagerClassFullname).isSome = true := by
    rw [metaEnv_isSome]
    exact h4
  have e5 : mc.relations.all (relationResolved (metaEnv s)) = true := by
    rw [list_all_congr mc.relations _ _ (fun r _ => metaEnv_relationResolved s r)]
    exact h5
  have e6 : (lookupTypeInfo (metaEnv s) ("builtins.str")).isSome = true := by
    rw [metaEnv_isSome]
    exact h6
  have e7 : (lookupTypeInfo (metaEnv s) OPTIONS_CLASS_FULLNAME).isSome = true := by
    rw [metaEnv_isSome]
    exact h7
  have P1 : injectAnyAsBaseForNestedMetaRun pc s = .completed (midState s s.modelInfo.names) :=
    injectAny_char pc s
  have P2 : ∀ ns, runWithModelCls pc (addDefaultPrimaryKeyBody pc) (midState s ns) =
      .completed (midState s (runW (autoFieldOps pc s.modelInfo.inheritedMembers mc) ns)) :=
    fun ns => step2_char pc mc (midState s ns) hb e1
  have P3 : ∀ ns, runWithModelCls pc (addRelatedModelsIdBody pc) (midState s ns) =
      .completed (midState s (runW ((mc.metaFields.map (fkOps pc)).flatten) ns)) :=
    fun ns => step3_char pc mc (midState s ns) hb e2
  have P4 : ∀ ns, runWithModelCls pc (addManagersBody pc) (midState s ns) =
      .completed (midState s
        (runW ((mc.managersMap.map (managerOps s.modelInfo.fullname)).flatten) ns)) :=
    fun ns => step4_char pc mc (midState s ns) hb e3
  have P5 : ∀ ns, runWithModelCls pc (addDefaultManagerBody pc) (midState s ns) =
      .completed (midState s (runW (defaultManagerOps s.modelInfo.fullname mc) ns)) :=
    fun ns => step5_char pc mc (midState s ns) hb e4
  have P6 : ∀ ns, runWithModelCls pc (addRelatedManagersBody pc) (midState s ns) =
      .completed (midState s (runW ((mc.relations.map relationOps).flatten) ns)) :=
    fun ns => step6_char pc mc (midState s ns) hb e5
  have P7 : ∀ ns, runWithModelCls pc (addExtraFieldMethodsBody pc) (midState s ns) =
      .completed (midState s
        (runW ((mc.modelFields.map choiceOps).flatten
          ++ (mc.modelFields.map (dateOps s.modelInfo.fullname)).flatten) ns)) :=
    fun ns => step7_char pc mc (midState s ns) hb e6
  have P8 : ∀ ns, runWithModelCls pc (addMetaOptionsBody pc) (midState s ns) =
      .completed (midState s (runW (metaOps s.modelInfo.fullname) ns)) :=
    fun ns => step8_char pc mc (midState s ns) hb e7
  rw [processModelClass, pipelineStepRuns]
  rw [runSteps_cons_completed _ _ _ _ P1]
  rw [runSteps_cons_completed _ _ _ _ (P2 _)]
  rw [runSteps_cons_completed _ _ _ _ (P3 _)]
  rw [runSteps_cons_completed _ _ _ _ (P4 _)]
  rw [runSteps_cons_completed _ _ _ _ (P5 _)]
  rw [runSteps_cons_completed _ _ _ _ (P6 _)]
  rw [runSteps_cons_completed _ _ _ _ (P7 _)]
  rw [runSteps_cons_completed _ _ _ _ (P8 _)]
  rw [runSteps]
  rw [pipelineOps]
  simp only [runW_append]

theorem flatten_data {α : Type} (l : List α) (g : α → List WOp)
    (h : ∀ x ∈ l, ∀ op ∈ g x, isDataOp op) :
    ∀ op ∈ (l.map g).flatten, isDataOp op := by
  intro op hop
  rw [List.mem_flatten] at hop
  obtain ⟨l2, hl2, hop2⟩ := hop
  rw [List.mem_map] at hl2
  obtain ⟨x, hx, hgx⟩ := hl2
  exact h x hx op (hgx ▸ hop2)

theorem autoFieldOps_data (pc : PluginCtx) (inh : List String) (mc : DjangoModelCls) :
    ∀ op ∈ autoFieldOps pc inh mc, isDataOp op := by
  intro op hop
  rw [autoFieldOps] at hop
  cases haf : mc.autoField with
  | none =>
    rw [haf] at hop
    simp at hop
  | some af =>
    rw [haf] at hop
    simp only [List.mem_singleton] at hop
    subst hop
    trivial

theorem fkOps_data (pc : PluginCtx) (f : DjangoField) :
    ∀ op ∈ fkOps pc f, isDataOp op := by
  intro op hop
  rw [fkOps] at hop
  by_cases hk : f.kind = .foreignKey
  · rw [if_pos hk] at hop
    cases hr : f.related with
    | none =>
      rw [hr] at hop
      simp at hop
    | some r =>
      rw [hr] at hop
      dsimp only at hop
      by_cases habs : r.isAbstract = true
      · rw [if_pos habs] at hop
        simp at hop
      · rw [if_neg habs] at hop
        simp only [List.mem_singleton] at hop
        subst hop
        trivial
  · rw [if_neg hk] at hop
    simp at hop

theorem managerOps_data (mf : String) (p : String × DjangoManager) :
    ∀ op ∈ managerOps mf p, isDataOp op := by
  intro op hop
  rw [managerOps] at hop
  simp only [List.mem_singleton] at hop
  subst hop
  trivial

theorem defaultManagerOps_data (mf : String) (mc : DjangoModelCls) :
    ∀ op ∈ defaultManagerOps mf mc, isDataOp op := by
  intro op hop
  rw [defaultManagerOps] at hop
  simp only [List.mem_singleton] at hop
  subst hop
  trivial

theorem relationOps_data (rel : DjangoRelation) :
    ∀ op ∈ relationOps rel, isDataOp op := by
  intro op hop
  rw [relationOps] at hop
  cases hacc : rel.accessorName with
  | none =>
    rw [hacc] at hop
    simp at hop
  | some att =>
    rw [hacc] at hop
    dsimp only at hop
    cases hrf : rel.relatedModelFullname with
    | none =>
      rw [hrf] at hop
      simp at hop
    | some rf =>
      rw [hrf] at hop
      dsimp only at hop
      cases hkd : rel.kind with
      | oneToOne =>
        rw [hkd] at hop
        simp only [List.mem_singleton] at hop
        subst hop
        trivial
      | manyToOne =>
        rw [hkd] at hop
        simp only [List.mem_singleton] at hop
        subst hop
        trivial
      | manyToMany =>
        rw [hkd] at hop
        simp only [List.mem_singleton] at hop
        subst hop
        trivial
      | otherRel =>
        rw [hkd] at hop
        simp at hop

theorem choiceOps_data (f : DjangoField) :
    ∀ op ∈ choiceOps f, isDataOp op := by
  intro op hop
  rw [choiceOps] at hop
  by_cases hc : f.choices.isEmpty = true
  · rw [if_pos hc] at hop
    simp at hop
  · rw [if_neg hc] at hop
    simp only [List.mem_singleton] at hop
    subst hop
    trivial

theorem dateOps_data (mf : String) (f : DjangoField) :
    ∀ op ∈ dateOps mf f, isDataOp op := by
  intro op hop
  rw [dateOps] at hop
  by_cases hd : isDateish f = true
  · rw [if_pos hd] at hop
    rcases List.mem_cons.mp hop with h | h
    · subst h
      trivial
    · simp only [List.mem_singleton] at h
      subst h
      trivial
  · rw [if_neg hd] at hop
    simp at hop

theorem metaOps_data (mf : String) :
    ∀ op ∈ metaOps mf, isDataOp op := by
  intro op hop
  rw [metaOps] at hop
  simp only [List.mem_singleton] at hop
  subst hop
  trivial

theorem pipelineOps_data (pc : PluginCtx) (mc : DjangoModelCls) (mf : String)
    (inh : List String) : ∀ op ∈ pipelineOps pc mc mf inh, isDataOp op := by
  intro op hop
  rw [pipelineOps] at hop
  simp only [List.mem_append] at hop
  rcases hop with (((((((h | h) | h) | h) | h) | h) | h) | h)
  · exact autoFieldOps_data pc inh mc op h
  · exact flatten_data mc.metaFields (fkOps pc) (fun x _ => fkOps_data pc x) op h
  · exact flatten_data mc.managersMap (managerOps mf) (fun x _ => managerOps_data mf x) op h
  · exact defaultManagerOps_data mf mc op h
  · exact flatten_data mc.relations relationOps (fun x _ => relationOps_data x) op h
  · exact flatten_data mc.modelFields choiceOps (fun x _ => choiceOps_data x) op h
  · exact flatten_data mc.modelFields (dateOps mf) (fun x _ => dateOps_data mf x) op h
  · exact metaOps_data mf op h

theorem metaEnv_stable (s : AnalyzerState) (ops : List WOp)
    (hdata : ∀ op ∈ ops, isDataOp op) :
    metaEnv (midState s (runW ops s.modelInfo.names)) = metaEnv s := by
  rcases lookupSym_runW_data ops s.modelInfo.names ("Meta") hdata with hsame | hnot
  · have hg : getNestedMetaNode (midState s (runW ops s.modelInfo.names))
        = getNestedMetaNode s := by
      rw [getNestedMetaNode, getNestedMetaNode]
      dsimp only [midState, setNames]
      rw [hsame]
    rw [metaEnv, hg]
    cases hm : getNestedMetaNode s with
    | none => rfl
    | some f =>
      dsimp only
      cases hl : lookupTypeInfo s.typeInfos f with
      | none =>
        have hms : metaEnv s = s.typeInfos := by
          rw [metaEnv, hm]
          dsimp only
          rw [hl]
        have htt : (midState s (runW ops s.modelInfo.names)).typeInfos = metaEnv s := rfl
        rw [htt, hms, hl]
      | some mi =>
        have hfn : mi.fullname = f := lookupTypeInfo_fullname _ _ _ hl
        have hms : metaEnv s = insertTypeInfo s.typeInfos { mi with fallbackToAny := true } := by
          rw [metaEnv, hm]
          dsimp only
          rw [hl]
        have hlk : lookupTypeInfo (metaEnv s) f = some { mi with fallbackToAny := true } := by
          rw [hms]
          have h0 := lookupTypeInfo_insertTypeInfo_self s.typeInfos
            { mi with fallbackToAny := true }
          rw [← hfn]
          exact h0
        have htt : (midState s (runW ops s.modelInfo.names)).typeInfos = metaEnv s := rfl
        rw [htt, hlk]
        dsimp only
        apply insertTypeInfo_self_of_lookup
        rw [← hfn] at hlk
        exact hlk
  · have hg : getNestedMetaNode (midState s (runW ops s.modelInfo.names)) = none := by
      rw [getNestedMetaNode]
      dsimp only [midState, setNames]
      cases hv : lookupSym (runW ops s.modelInfo.names) ("Meta") with
      | none => rfl
      | some v =>
        cases v with
        | typeRef f => exact absurd hv (hnot f)
        | varSym t => rfl
        | funcSym a b c => rfl
    rw [metaEnv, hg]
    rfl

theorem midState_fixpoint (pc : PluginCtx) (mc : DjangoModelCls) (s : AnalyzerState)
    (hb : getModelClsByFullname pc s.modelInfo.fullname = some mc)
    (hres : allDependenciesResolved mc s.typeInfos = true)
    (hnd : ((pipelineOps pc mc s.modelInfo.fullname s.modelInfo.inheritedMembers).map wkey).Nodup) :
    processModelClass pc
        (midState s (runW (pipelineOps pc mc s.modelInfo.fullname s.modelInfo.inheritedMembers)
          s.modelInfo.names))
      = midState s (runW (pipelineOps pc mc s.modelInfo.fullname s.modelInfo.inheritedMembers)
          s.modelInfo.names) := by
  have hbM : getModelClsByFullname pc
      (midState s (runW (pipelineOps pc mc s.modelInfo.fullname s.modelInfo.inheritedMembers)
        s.modelInfo.names)).modelInfo.fullname = some mc := hb
  have hresM : allDependenciesResolved mc
      (midState s (runW (pipelineOps pc mc s.modelInfo.fullname s.modelInfo.inheritedMembers)
        s.modelInfo.names)).typeInfos = true := by
    show allDependenciesResolved mc (metaEnv s) = true
    rw [metaEnv_allResolved]
    exact hres
  have h2 := pipeline_char pc mc
    (midState s (runW (pipelineOps pc mc s.modelInfo.fullname s.modelInfo.inheritedMembers)
      s.modelInfo.names)) hbM hresM
  have h3 : processModelClass pc
      (midState s (runW (pipelineOps pc mc s.modelInfo.fullname s.modelInfo.inheritedMembers)
        s.modelInfo.names))
      = midState
          (midState s
            (runW (pipelineOps pc mc s.modelInfo.fullname s.modelInfo.inheritedMembers)
              s.modelInfo.names))
          (runW (pipelineOps pc mc s.modelInfo.fullname s.modelInfo.inheritedMembers)
            (runW (pipelineOps pc mc s.modelInfo.fullname s.modelInfo.inheritedMembers)
              s.modelInfo.names)) := h2
  rw [h3, runW_idem _ _ hnd]
  show setNames
      { (midState s (runW (pipelineOps pc mc s.modelInfo.fullname s.modelInfo.inheritedMembers)
          s.modelInfo.names)) with
        typeInfos := metaEnv (midState s
          (runW (pipelineOps pc mc s.modelInfo.fullname s.modelInfo.inheritedMembers)
            s.modelInfo.names)) }
      (runW (pipelineOps pc mc s.modelInfo.fullname s.modelInfo.inheritedMembers)
        s.modelInfo.names)
    = midState s (runW (pipelineOps pc mc s.modelInfo.fullname s.modelInfo.inheritedMembers)
        s.modelInfo.names)
  rw [metaEnv_stable s
    (pipelineOps pc mc s.modelInfo.fullname s.modelInfo.inheritedMembers)
    (pipelineOps_data pc mc s.modelInfo.fullname s.modelInfo.inheritedMembers)]
  rfl

/-- C3 (amended): for a backed declaration with all dependencies resolved
and no manager whose template type has a placeholder-parametrized manager
base (the manager-forging case is excluded), and whose synthetic write
names are pairwise distinct, running the whole pipeline a second time
immediately after a first run changes nothing at all — in particular the
symbol table of the declaration has zero delta. -/
theorem c3_pipeline_idempotent (pc : PluginCtx) (mc : DjangoModelCls) (s : AnalyzerState)
    (hb : getModelClsByFullname pc s.modelInfo.fullname = some mc)
    (hres : allDependenciesResolved mc s.typeInfos = true)
    (hnd : ((pipelineOps pc mc s.modelInfo.fullname s.modelInfo.inheritedMembers).map wkey).Nodup) :
    processModelClass pc (processModelClass pc s) = processModelClass pc s := by
  rw [pipeline_char pc mc s hb hres]
  exact midState_fixpoint pc mc s hb hres hnd

/-- Concrete data for the C3 witness: a fully resolvable model that
exercises the identity field, a shadow id, a plain manager, the default
manager, a one-to-one reverse relation, a choice field, a date field and
the metadata handle. -/
def c3Mc : DjangoModelCls :=
  { autoField := some
      { name := "id", attname := "id", kind := .otherKind, null := false,
        choices := [], classFullname := "m.AutoField", relatedModelRepr := "",
        related := none }
    metaFields :=
      [ { name := "b", attname := "b_id", kind := .foreignKey, null := false,
          choices := [], classFullname := "m.FK", relatedModelRepr := "B",
          related := some { fullname := "m.B", isAbstract := false,
                            pkClassFullname := "m.IntField" } } ]
    managersMap :=
      [("objects", { className := "PlainManager", classFullname := "m.PlainManager",
                     baseClassFullname := "django.db.models.manager.Manager",
                     modelName := "M" })]
    defaultManagerClassFullname := "m.PlainManager"
    relations :=
      [ { kind := .oneToOne, accessorName := some ("profile"),
          relatedModelFullname := some ("m.B") } ]
    modelFields :=
      [ { name := "status", attname := "status", kind := .otherKind, null := false,
          choices := [("A", "Alpha"), ("B", "Beta")], classFullname := "m.CharField",
          relatedModelRepr := "", related := none }
      , { name := "created", attname := "created", kind := .dateKind, null := false,
          choices := [], classFullname := "m.DateField", relatedModelRepr := "",
          related := none } ] }

def c3Pc : PluginCtx :=
  { djangoModels := [("m.M", c3Mc)], oracle := fun f _ => (.inst (f ++ ".set") [], .inst (f ++ ".get") []) }

def c3TI (f : String) : TypeInfo :=
  { fullname := f, moduleName := "m", names := [], bases := [],
    fromQuerysetManagers := [], fallbackToAny := false, inheritedMembers := [] }

def c3S : AnalyzerState :=
  { modelInfo :=
      { fullname := "m.M", moduleName := "m", names := [], bases := [],
        fromQuerysetManagers := [], fallbackToAny := false, inheritedMembers := [] }
    typeInfos :=
      [ c3TI ("m.AutoField"), c3TI ("m.IntField"), c3TI ("m.B"),
        c3TI ("m.PlainManager"), c3TI ("builtins.str"),
        c3TI ("django.db.models.options.Options") ]
    errors := []
    deferralRequested := false
    finalIteration := false }

theorem c3_pipeline_idempotent_witness :
    allDependenciesResolved c3Mc c3S.typeInfos = true
    ∧ ((pipelineOps c3Pc c3Mc c3S.modelInfo.fullname c3S.modelInfo.inheritedMembers).map wkey).Nodup
    ∧ processModelClass c3Pc (processModelClass c3Pc c3S) = processModelClass c3Pc c3S :=
  ⟨by decide, by decide,
   c3_pipeline_idempotent c3Pc c3Mc c3S (by decide) (by decide) (by decide)⟩

/-- Concrete data for the C3 counterexample: a custom manager class whose
only base is the generic manager parametrized with the placeholder; every
dependency resolves, yet the second run forges and rebinds. -/
def c3xMc : DjangoModelCls :=
  { autoField := none
    metaFields := []
    managersMap :=
      [("objects", { className := "MyManager", classFullname := "m.MyManager",
                     baseClassFullname := "django.db.models.manager.Manager",
                     modelName := "A" })]
    defaultManagerClassFullname := "m.MyManager"
    relations := []
    modelFields := [] }

def c3xPc : PluginCtx :=
  { djangoModels := [("m.A", c3xMc)], oracle := fun _ _ => (.any, .any) }

def c3xS : AnalyzerState :=
  { modelInfo :=
      { fullname := "m.A", moduleName := "m", names := [], bases := [],
        fromQuerysetManagers := [], fallbackToAny := false, inheritedMembers := [] }
    typeInfos :=
      [ { fullname := "m.MyManager", moduleName := "m",
          names := [("custom", SymValue.funcSym none [] .any)],
          bases := [.inst ("django.db.models.manager.Manager") [.any]],
          fromQuerysetManagers := [], fallbackToAny := false, inheritedMembers := [] }
      , { fullname := "django.db.models.manager.Manager",
          moduleName := "django.db.models.manager", names := [], bases := [],
          fromQuerysetManagers := [], fallbackToAny := false, inheritedMembers := [] }
      , c3TI ("django.db.models.options.Options") ]
    errors := []
    deferralRequested := false
    finalIteration := false }

/-- C3, counterexample to the claim as stated: on this declaration every
dependency is resolved — the first run completes with no deferral and no
diagnostic — yet the second run rewrites the `objects` symbol from the
directly parametrized manager to a freshly forged `m.A_MyManager`
specialization, a nonzero symbol-table delta. -/
theorem c3_counterexample :
    (processModelClass c3xPc c3xS).deferralRequested = false
    ∧ (processModelClass c3xPc c3xS).errors = ([] : List (String × ErrCtx))
    ∧ lookupSym (processModelClass c3xPc c3xS).modelInfo.names ("objects")
        = some (.varSym (.inst ("m.MyManager") [.inst ("m.A") []]))
    ∧ lookupSym (processModelClass c3xPc (processModelClass c3xPc c3xS)).modelInfo.names
        ("objects")
        = some (.varSym (.inst ("m.A_MyManager") [.inst ("m.A") []]))
    ∧ (processModelClass c3xPc (processModelClass c3xPc c3xS)).modelInfo.names
        ≠ (processModelClass c3xPc c3xS).modelInfo.names :=
  ⟨by decide, by decide, by decide, by decide, by decide⟩

end DjangoStubs
